import Mathlib

/-!
Verification of the init-data verifier and session issuer of
`backend/app.py` (HookahSpliter).

The program is shallowly embedded: every Python function of the core
(`build_data_check_string`, `derive_secret_key`, `verify_init_data`,
`make_jwt`, `auth_telegram`) is translated to an executable Lean
definition, together with models of the library routines they call
(`urllib.parse.parse_qsl` with `keep_blank_values=True`, `json.loads`,
`int(...)`, `str.lower`, `str.strip`, `hmac`/`hashlib.sha256`).
Machine integers do not occur (Python integers are unbounded); byte
strings are `List Nat` with each element a byte value.  Wall-clock time
(`time.time()`) is passed in as an explicit `now : Int` parameter.
-/

set_option maxRecDepth 4000
set_option linter.unusedVariables false

namespace App

/-! ### Characters and strings -/

/-- Build a `String` from its character list. -/
def ofChars (l : List Char) : String := ⟨l⟩

/-- Model of `str.lower` restricted to ASCII letters.  (CPython lowers the
full Unicode range; the payloads of this protocol are ASCII hex digests,
where the two agree.) -/
def asciiLowerChar (c : Char) : Char :=
  if 'A' ≤ c ∧ c ≤ 'Z' then Char.ofNat (c.toNat + 32) else c

/-- Lower-case a string, ASCII range. -/
def asciiLower (s : String) : String := ofChars (s.data.map asciiLowerChar)

/-- Python whitespace characters recognised by `str.strip()` and
`int(...)` (ASCII fragment). -/
def isPyWs (c : Char) : Bool :=
  c = ' ' || c = '\t' || c = '\n' || c = '\r' || c = '\x0b' || c = '\x0c'

/-- Model of `str.strip()` (ASCII whitespace fragment). -/
def pyStrip (s : String) : String :=
  ofChars (((s.data.dropWhile fun c => isPyWs c).reverse.dropWhile fun c => isPyWs c).reverse)

/-! ### UTF-8

`str.encode()` / `bytes.decode(errors='replace')` models.  Bytes are `Nat`
values below 256. -/

/-- UTF-8 encoding of one code point (assumed a valid scalar value). -/
def utf8EncodeNat (n : Nat) : List Nat :=
  if n < 0x80 then [n]
  else if n < 0x800 then [0xC0 + n / 0x40, 0x80 + n % 0x40]
  else if n < 0x10000 then [0xE0 + n / 0x1000, 0x80 + n / 0x40 % 0x40, 0x80 + n % 0x40]
  else [0xF0 + n / 0x40000, 0x80 + n / 0x1000 % 0x40, 0x80 + n / 0x40 % 0x40, 0x80 + n % 0x40]

/-- UTF-8 encoding of one character. -/
def utf8EncodeChar (c : Char) : List Nat := utf8EncodeNat c.toNat

/-- UTF-8 encoding of a character list (model of `str.encode()`). -/
def utf8Encode : List Char → List Nat
  | [] => []
  | c :: cs => utf8EncodeChar c ++ utf8Encode cs

/-- Bytes of a string under UTF-8 (model of `str.encode()`). -/
def strBytes (s : String) : List Nat := utf8Encode s.data

/-- The Unicode replacement character U+FFFD. -/
def replChar : Char := Char.ofNat 0xFFFD

/-- Is the byte a UTF-8 continuation byte? -/
def isCont (b : Nat) : Bool := 0x80 ≤ b && b < 0xC0

/-- UTF-8 decoding with U+FFFD replacement of invalid sequences
(model of `bytes.decode('utf-8', errors='replace')`, maximal-subpart
replacement policy). -/
def utf8Decode : List Nat → List Char
  | [] => []
  | b :: bs =>
    if b < 0x80 then Char.ofNat b :: utf8Decode bs
    else if b < 0xC2 then replChar :: utf8Decode bs
    else if b < 0xE0 then
      match bs with
      | [] => [replChar]
      | b1 :: bs1 =>
        if isCont b1 then Char.ofNat ((b - 0xC0) * 0x40 + (b1 - 0x80)) :: utf8Decode bs1
        else replChar :: utf8Decode (b1 :: bs1)
    else if b < 0xF0 then
      match bs with
      | [] => [replChar]
      | b1 :: bs1 =>
        if (if b = 0xE0 then 0xA0 else 0x80) ≤ b1 ∧ b1 ≤ (if b = 0xED then 0x9F else 0xBF) then
          match bs1 with
          | [] => [replChar]
          | b2 :: bs2 =>
            if isCont b2 then
              Char.ofNat ((b - 0xE0) * 0x1000 + (b1 - 0x80) * 0x40 + (b2 - 0x80)) :: utf8Decode bs2
            else replChar :: utf8Decode (b2 :: bs2)
        else replChar :: utf8Decode (b1 :: bs1)
    else if b < 0xF5 then
      match bs with
      | [] => [replChar]
      | b1 :: bs1 =>
        if (if b = 0xF0 then 0x90 else 0x80) ≤ b1 ∧ b1 ≤ (if b = 0xF4 then 0x8F else 0xBF) then
          match bs1 with
          | [] => [replChar]
          | b2 :: bs2 =>
            if isCont b2 then
              match bs2 with
              | [] => [replChar]
              | b3 :: bs3 =>
                if isCont b3 then
                  Char.ofNat ((b - 0xF0) * 0x40000 + (b1 - 0x80) * 0x1000 +
                    (b2 - 0x80) * 0x40 + (b3 - 0x80)) :: utf8Decode bs3
                else replChar :: utf8Decode (b3 :: bs3)
            else replChar :: utf8Decode (b2 :: bs2)
        else replChar :: utf8Decode (b1 :: bs1)
    else replChar :: utf8Decode bs

/-- Validity bounds of a character's code point, in `Nat` form. -/
theorem char_toNat_valid (c : Char) :
    c.toNat < 0xD800 ∨ (0xDFFF < c.toNat ∧ c.toNat < 0x110000) := c.valid

/-- Decoding inverts encoding, one character at a time. -/
theorem utf8Decode_encodeChar (c : Char) (bs : List Nat) :
    utf8Decode (utf8EncodeChar c ++ bs) = c :: utf8Decode bs := by
  have hv := char_toNat_valid c
  have hofNat := Char.ofNat_toNat c
  unfold utf8EncodeChar utf8EncodeNat
  by_cases h1 : c.toNat < 0x80
  · simp only [if_pos h1, List.cons_append, List.nil_append]
    rw [utf8Decode.eq_def]
    simp only [if_pos h1, hofNat]
  · by_cases h2 : c.toNat < 0x800
    · simp only [if_neg h1, if_pos h2, List.cons_append, List.nil_append]
      rw [utf8Decode.eq_def]
      have hb : ¬ (0xC0 + c.toNat / 0x40 < 0x80) := by omega
      have hb2 : ¬ (0xC0 + c.toNat / 0x40 < 0xC2) := by omega
      have hb3 : 0xC0 + c.toNat / 0x40 < 0xE0 := by omega
      have hcont : isCont (0x80 + c.toNat % 0x40) = true := by
        simp only [isCont, Bool.and_eq_true, decide_eq_true_eq]
        omega
      simp only [if_neg hb, if_neg hb2, if_pos hb3, hcont, if_pos]
      have : (0xC0 + c.toNat / 0x40 - 0xC0) * 0x40 + (0x80 + c.toNat % 0x40 - 0x80) = c.toNat := by
        omega
      rw [this, hofNat]
    · by_cases h3 : c.toNat < 0x10000
      · simp only [if_neg h1, if_neg h2, if_pos h3, List.cons_append, List.nil_append]
        rw [utf8Decode.eq_def]
        have hb : ¬ (0xE0 + c.toNat / 0x1000 < 0x80) := by omega
        have hb2 : ¬ (0xE0 + c.toNat / 0x1000 < 0xC2) := by omega
        have hb3 : ¬ (0xE0 + c.toNat / 0x1000 < 0xE0) := by omega
        have hb4 : 0xE0 + c.toNat / 0x1000 < 0xF0 := by omega
        have hrange : (if 0xE0 + c.toNat / 0x1000 = 0xE0 then 0xA0 else 0x80) ≤
            0x80 + c.toNat / 0x40 % 0x40 ∧ 0x80 + c.toNat / 0x40 % 0x40 ≤
            (if 0xE0 + c.toNat / 0x1000 = 0xED then 0x9F else 0xBF) := by
          constructor
          · split
            · omega
            · omega
          · split
            · omega
            · omega
        have hcont : isCont (0x80 + c.toNat % 0x40) = true := by
          simp only [isCont, Bool.and_eq_true, decide_eq_true_eq]
          omega
        simp only [if_neg hb, if_neg hb2, if_neg hb3, if_pos hb4, if_pos hrange, hcont, if_pos]
        have : (0xE0 + c.toNat / 0x1000 - 0xE0) * 0x1000 +
            (0x80 + c.toNat / 0x40 % 0x40 - 0x80) * 0x40 + (0x80 + c.toNat % 0x40 - 0x80) =
            c.toNat := by omega
        rw [this, hofNat]
      · simp only [if_neg h1, if_neg h2, if_neg h3, List.cons_append, List.nil_append]
        rw [utf8Decode.eq_def]
        have hb : ¬ (0xF0 + c.toNat / 0x40000 < 0x80) := by omega
        have hb2 : ¬ (0xF0 + c.toNat / 0x40000 < 0xC2) := by omega
        have hb3 : ¬ (0xF0 + c.toNat / 0x40000 < 0xE0) := by omega
        have hb4 : ¬ (0xF0 + c.toNat / 0x40000 < 0xF0) := by omega
        have hb5 : 0xF0 + c.toNat / 0x40000 < 0xF5 := by omega
        have hrange : (if 0xF0 + c.toNat / 0x40000 = 0xF0 then 0x90 else 0x80) ≤
            0x80 + c.toNat / 0x1000 % 0x40 ∧ 0x80 + c.toNat / 0x1000 % 0x40 ≤
            (if 0xF0 + c.toNat / 0x40000 = 0xF4 then 0x8F else 0xBF) := by
          constructor
          · split
            · omega
            · omega
          · split
            · omega
            · omega
        have hcont2 : isCont (0x80 + c.toNat / 0x40 % 0x40) = true := by
          simp only [isCont, Bool.and_eq_true, decide_eq_true_eq]
          omega
        have hcont3 : isCont (0x80 + c.toNat % 0x40) = true := by
          simp only [isCont, Bool.and_eq_true, decide_eq_true_eq]
          omega
        simp only [if_neg hb, if_neg hb2, if_neg hb3, if_neg hb4, if_pos hb5, if_pos hrange,
          hcont2, hcont3, if_pos]
        have : (0xF0 + c.toNat / 0x40000 - 0xF0) * 0x40000 +
            (0x80 + c.toNat / 0x1000 % 0x40 - 0x80) * 0x1000 +
            (0x80 + c.toNat / 0x40 % 0x40 - 0x80) * 0x40 + (0x80 + c.toNat % 0x40 - 0x80) =
            c.toNat := by omega
        rw [this, hofNat]

/-- Decoding inverts encoding on whole character lists. -/
theorem utf8Decode_encode (l : List Char) : utf8Decode (utf8Encode l) = l := by
  induction l with
  | nil => rfl
  | cons c cs ih =>
    rw [utf8Encode, utf8Decode_encodeChar, ih]

/-- Every byte produced by the UTF-8 encoder is below 256. -/
theorem utf8EncodeChar_lt_256 (c : Char) : ∀ b ∈ utf8EncodeChar c, b < 256 := by
  have hv := char_toNat_valid c
  intro b hb
  unfold utf8EncodeChar utf8EncodeNat at hb
  by_cases h1 : c.toNat < 0x80
  · simp only [if_pos h1, List.mem_singleton] at hb
    omega
  · by_cases h2 : c.toNat < 0x800
    · simp only [if_neg h1, if_pos h2, List.mem_cons, List.mem_singleton,
        List.not_mem_nil, or_false] at hb
      rcases hb with h | h <;> omega
    · by_cases h3 : c.toNat < 0x10000
      · simp only [if_neg h1, if_neg h2, if_pos h3, List.mem_cons, List.mem_singleton,
          List.not_mem_nil, or_false] at hb
        rcases hb with h | h | h <;> omega
      · simp only [if_neg h1, if_neg h2, if_neg h3, List.mem_cons, List.mem_singleton,
          List.not_mem_nil, or_false] at hb
        rcases hb with h | h | h | h <;> omega

/-! ### Query-string parsing

Model of `urllib.parse.parse_qsl(init_data, keep_blank_values=True)`. -/

/-- Hex digit value of a character, if it is an ASCII hex digit
(either case, as accepted by `urllib.parse.unquote`). -/
def hexDigitVal (c : Char) : Option Nat :=
  if '0' ≤ c ∧ c ≤ '9' then some (c.toNat - 48)
  else if 'a' ≤ c ∧ c ≤ 'f' then some (c.toNat - 87)
  else if 'A' ≤ c ∧ c ≤ 'F' then some (c.toNat - 55)
  else none

/-- Percent-scan of `urllib.parse.unquote`: each valid `%XX` escape
contributes the byte `0xXX`; an invalid escape leaves `'%'` literal; any
other character contributes its UTF-8 bytes.  (CPython splits the input
into maximal ASCII runs and byte-decodes each run with
`errors='replace'`; on this protocol's ASCII payloads the two agree.) -/
def pctScan : List Char → List Nat
  | [] => []
  | '%' :: c1 :: c2 :: rest =>
    match hexDigitVal c1, hexDigitVal c2 with
    | some h, some l => (h * 16 + l) :: pctScan rest
    | _, _ => utf8EncodeChar '%' ++ pctScan (c1 :: c2 :: rest)
  | c :: rest => utf8EncodeChar c ++ pctScan rest

/-- Model of `urllib.parse.unquote(s)` with the default
`encoding='utf-8', errors='replace'`. -/
def unquote (s : String) : String := ofChars (utf8Decode (pctScan s.data))

/-- Model of `str.replace('+', ' ')`, applied by `parse_qsl` to each
field before unquoting. -/
def plusToSpace (s : String) : String :=
  ofChars (s.data.map fun c => if c = '+' then ' ' else c)

/-- Split a character list at every `'&'` (model of `str.split('&')`;
empty pieces are kept, `""` yields `[""]`). -/
def splitAmp : List Char → List (List Char)
  | [] => [[]]
  | c :: rest =>
    if c = '&' then [] :: splitAmp rest
    else
      match splitAmp rest with
      | [] => [[c]]
      | f :: fs => (c :: f) :: fs

/-- Split a field at the first `'='` (model of `str.partition('=')`).
Returns the part before, whether a separator was found, and the part
after (the whole field and an empty remainder when no `'='` occurs). -/
def eqSplit : List Char → List Char × Bool × List Char
  | [] => ([], false, [])
  | c :: rest =>
    if c = '=' then ([], true, rest)
    else
      let r := eqSplit rest
      (c :: r.1, r.2.1, r.2.2)

/-- Decode one nonempty query-string field into a key-value pair (the
`parse_qsl` loop body with `keep_blank_values=True`: a field without
`'='` becomes `(name, "")`). -/
def fieldToPair (f : List Char) : String × String :=
  let r := eqSplit f
  (unquote (plusToSpace (ofChars r.1)), unquote (plusToSpace (ofChars r.2.2)))

/-- Model of `urllib.parse.parse_qsl(s, keep_blank_values=True)`:
split on `'&'`, skip empty fields, decode each field. -/
def parse_qsl (s : String) : List (String × String) :=
  (splitAmp s.data).filterMap fun f =>
    if f = [] then none else some (fieldToPair f)

/-- Last-occurrence lookup: model of building `dict(pairs)` and calling
`.get(k)` (later duplicates overwrite earlier ones). -/
def dictGet : List (String × String) → String → Option String
  | [], _ => none
  | (k1, v1) :: rest, k =>
    match dictGet rest k with
    | some v => some v
    | none => if k1 = k then some v1 else none

/-- Model of the Python expression `o or d` for an optional string
(`None` and `""` are the falsy cases). -/
def pyOrStr (o : Option String) (d : String) : String :=
  match o with
  | none => d
  | some s => if s = "" then d else s

/-! ### SHA-256 and HMAC

Executable model of `hashlib.sha256` and `hmac.new(key, msg,
hashlib.sha256)`.  Words are `Nat` values reduced mod `2^32` explicitly. -/

/-- Reduce to a 32-bit word. -/
def w32 (n : Nat) : Nat := n % 4294967296

/-- Rotate a 32-bit word right by `n` bits. -/
def rotr32 (n x : Nat) : Nat := w32 ((x >>> n) ||| (x <<< (32 - n)))

/-- Bitwise complement on 32-bit words. -/
def compl32 (x : Nat) : Nat := 4294967295 ^^^ x

/-- SHA-256 Ch function. -/
def shaCh (e f g : Nat) : Nat := (e &&& f) ^^^ (compl32 e &&& g)

/-- SHA-256 Maj function. -/
def shaMaj (a b c : Nat) : Nat := (a &&& b) ^^^ (a &&& c) ^^^ (b &&& c)

/-- SHA-256 big sigma 0. -/
def bigSigma0 (x : Nat) : Nat := rotr32 2 x ^^^ rotr32 13 x ^^^ rotr32 22 x

/-- SHA-256 big sigma 1. -/
def bigSigma1 (x : Nat) : Nat := rotr32 6 x ^^^ rotr32 11 x ^^^ rotr32 25 x

/-- SHA-256 small sigma 0. -/
def smallSigma0 (x : Nat) : Nat := rotr32 7 x ^^^ rotr32 18 x ^^^ (x >>> 3)

/-- SHA-256 small sigma 1. -/
def smallSigma1 (x : Nat) : Nat := rotr32 17 x ^^^ rotr32 19 x ^^^ (x >>> 10)

/-- The 64 SHA-256 round constants of FIPS 180-4, in decimal. -/
def sha256K : List Nat :=
  [1116352408, 1899447441, 3049323471, 3921009573, 961987163,
   1508970993, 2453635748, 2870763221, 3624381080, 310598401,
   607225278, 1426881987, 1925078388, 2162078206, 2614888103,
   3248222580, 3835390401, 4022224774, 264347078, 604807628,
   770255983, 1249150122, 1555081692, 1996064986, 2554220882,
   2821834349, 2952996808, 3210313671, 3336571891, 3584528711,
   113926993, 338241895, 666307205, 773529912, 1294757372,
   1396182291, 1695183700, 1986661051, 2177026350, 2456956037,
   2730485921, 2820302411, 3259730800, 3345764771, 3516065817,
   3600352804, 4094571909, 275423344, 430227734, 506948616,
   659060556, 883997877, 958139571, 1322822218, 1537002063,
   1747873779, 1955562222, 2024104815, 2227730452, 2361852424,
   2428436474, 2756734187, 3204031479, 3329325298]

/-- Big-endian byte rendering of a value on `k` bytes. -/
def beBytes : Nat → Nat → List Nat
  | 0, _ => []
  | k + 1, v => beBytes k (v / 256) ++ [v % 256]

/-- Number of zero bytes of SHA-256 padding for a message of `len` bytes. -/
def shaPadZeros (len : Nat) : Nat := (64 - (len + 9) % 64) % 64

/-- SHA-256 message padding. -/
def sha256Pad (msg : List Nat) : List Nat :=
  msg ++ 0x80 :: (List.replicate (shaPadZeros msg.length) 0 ++ beBytes 8 (msg.length * 8))

/-- Pack bytes into big-endian 32-bit words (length assumed a multiple
of 4; a ragged tail cannot occur after padding and is dropped). -/
def bytesToWords : List Nat → List Nat
  | b0 :: b1 :: b2 :: b3 :: rest =>
    (((b0 * 256 + b1) * 256 + b2) * 256 + b3) :: bytesToWords rest
  | _ => []

/-- Chunk a word list into 16-word blocks. -/
def chunk16 : List Nat → List (List Nat)
  | [] => []
  | w :: ws => ((w :: ws).take 16) :: chunk16 ((w :: ws).drop 16)
  termination_by l => l.length
  decreasing_by
    simp only [List.length_drop, List.length_cons]
    omega

/-- Extend the 16-word message schedule by `n` further words. -/
def extendW (ws : List Nat) : Nat → List Nat
  | 0 => ws
  | n + 1 =>
    extendW (ws ++ [w32 (smallSigma1 (ws.getD (ws.length - 2) 0) + ws.getD (ws.length - 7) 0 +
      smallSigma0 (ws.getD (ws.length - 15) 0) + ws.getD (ws.length - 16) 0)]) n

/-- The eight 32-bit working variables of SHA-256. -/
structure Sha256State where
  a : Nat
  b : Nat
  c : Nat
  d : Nat
  e : Nat
  f : Nat
  g : Nat
  h : Nat

/-- The SHA-256 initial hash value of FIPS 180-4, in decimal. -/
def sha256Init : Sha256State :=
  ⟨1779033703, 3144134277, 1013904242, 2773480762,
   1359893119, 2600822924, 528734635, 1541459225⟩

/-- One SHA-256 compression round. -/
def sha256Round (s : Sha256State) (kw : Nat × Nat) : Sha256State :=
  let t1 := w32 (s.h + bigSigma1 s.e + shaCh s.e s.f s.g + kw.1 + kw.2)
  let t2 := w32 (bigSigma0 s.a + shaMaj s.a s.b s.c)
  ⟨w32 (t1 + t2), s.a, s.b, s.c, w32 (s.d + t1), s.e, s.f, s.g⟩

/-- Compress one 16-word block into the running state. -/
def sha256Block (s : Sha256State) (block : List Nat) : Sha256State :=
  let ws := extendW block 48
  let t := (sha256K.zip ws).foldl sha256Round s
  ⟨w32 (s.a + t.a), w32 (s.b + t.b), w32 (s.c + t.c), w32 (s.d + t.d),
   w32 (s.e + t.e), w32 (s.f + t.f), w32 (s.g + t.g), w32 (s.h + t.h)⟩

/-- Big-endian bytes of one 32-bit word. -/
def wordBytes (w : Nat) : List Nat :=
  [w / 0x1000000 % 256, w / 0x10000 % 256, w / 0x100 % 256, w % 256]

/-- SHA-256 digest of a byte string (model of
`hashlib.sha256(msg).digest()`). -/
def sha256 (msg : List Nat) : List Nat :=
  let fin := (chunk16 (bytesToWords (sha256Pad msg))).foldl sha256Block sha256Init
  wordBytes fin.a ++ wordBytes fin.b ++ wordBytes fin.c ++ wordBytes fin.d ++
  wordBytes fin.e ++ wordBytes fin.f ++ wordBytes fin.g ++ wordBytes fin.h

/-- HMAC-SHA256 (model of `hmac.new(key, msg, hashlib.sha256).digest()`;
the block size is 64 bytes). -/
def hmacSha256 (key msg : List Nat) : List Nat :=
  let k0 := if 64 < key.length then sha256 key else key
  let kp := k0 ++ List.replicate (64 - k0.length) 0
  sha256 ((kp.map fun b => b ^^^ 0x5c) ++ sha256 ((kp.map fun b => b ^^^ 0x36) ++ msg))

/-- The sixteen lower-case hex digits. -/
def hexLowerChars : List Char := "0123456789abcdef".data

/-- Lower-case hex digit of a nibble. -/
def hexChar (n : Nat) : Char := hexLowerChars.getD (n % 16) '0'

/-- Lower-case hex rendering of a byte string (model of
`.hexdigest()`). -/
def hexStr (bytes : List Nat) : String :=
  ofChars (bytes.foldr (fun b acc => hexChar (b / 16) :: hexChar b :: acc) [])

/-! ### Python `int(...)` -/

/-- Parse decimal digits with single underscores allowed between digits
(the tail after the first digit), accumulating the value. -/
def pyDigitsRest (acc : Nat) : List Char → Option Nat
  | [] => some acc
  | '_' :: c :: rest =>
    if c.isDigit then pyDigitsRest (acc * 10 + (c.toNat - 48)) rest else none
  | c :: rest =>
    if c.isDigit then pyDigitsRest (acc * 10 + (c.toNat - 48)) rest else none

/-- Parse a nonempty digit run with underscores. -/
def pyDigits : List Char → Option Nat
  | c :: rest => if c.isDigit then pyDigitsRest (c.toNat - 48) rest else none
  | [] => none

/-- Model of Python `int(s)` on a `str`: optional surrounding whitespace,
optional sign, decimal digits with single underscores between digits;
`none` models `ValueError`.  (CPython also accepts non-ASCII decimal
digits and Unicode whitespace; absent from this protocol.) -/
def pyInt (s : String) : Option Int :=
  let l := ((s.data.dropWhile fun c => isPyWs c).reverse.dropWhile fun c => isPyWs c).reverse
  match l with
  | '+' :: rest => (pyDigits rest).map fun n => (n : Int)
  | '-' :: rest => (pyDigits rest).map fun n => -(n : Int)
  | _ => (pyDigits l).map fun n => (n : Int)

/-- Model of `try: int(s) except ValueError: 0`. -/
def pyIntOr0 (s : String) : Int := (pyInt s).getD 0

/-! ### JSON values and `json.loads` -/

/-- Decoded Python JSON values.  Non-integral numbers are kept
syntactically (integer part, fraction digits, exponent) rather than as
floating point. -/
inductive Json where
  | null
  | bool (b : Bool)
  | num (n : Int)
  | fnum (ip : Int) (frac : String) (ex : Int)
  | nan
  | inf (neg : Bool)
  | str (s : String)
  | arr (elems : List Json)
  | obj (fields : List (String × Json))
  deriving Repr

/-- Skip JSON whitespace (space, tab, newline, carriage return). -/
def skipWs (l : List Char) : List Char :=
  l.dropWhile fun c => c = ' ' || c = '\t' || c = '\n' || c = '\r'

/-- Parse four hex digits. -/
def hex4 : List Char → Option (Nat × List Char)
  | c1 :: c2 :: c3 :: c4 :: rest =>
    match hexDigitVal c1, hexDigitVal c2, hexDigitVal c3, hexDigitVal c4 with
    | some a, some b, some c, some d => some ((((a * 16 + b) * 16 + c) * 16 + d), rest)
    | _, _, _, _ => none
  | _ => none

/-- Scan a JSON string body after the opening quote (model of the
CPython `scanstring` in strict mode: raw control characters are
rejected; `\uXXXX` escapes with surrogate-pair combination).  A lone
surrogate, which CPython keeps in the `str`, is replaced by U+FFFD
because Lean characters are Unicode scalar values. -/
def scanStr : Nat → List Char → Option (List Char × List Char)
  | 0, _ => none
  | _ + 1, [] => none
  | _ + 1, '"' :: rest => some ([], rest)
  | fuel + 1, '\\' :: 'u' :: c1 :: c2 :: c3 :: c4 :: rest =>
    (match hexDigitVal c1, hexDigitVal c2, hexDigitVal c3, hexDigitVal c4 with
     | some a, some b, some c, some d =>
       let n := ((a * 16 + b) * 16 + c) * 16 + d
       if 0xD800 ≤ n ∧ n < 0xDC00 then
         match rest with
         | '\\' :: 'u' :: d1 :: d2 :: d3 :: d4 :: rest2 =>
           (match hexDigitVal d1, hexDigitVal d2, hexDigitVal d3, hexDigitVal d4 with
            | some a2, some b2, some c2, some e2 =>
              let m := ((a2 * 16 + b2) * 16 + c2) * 16 + e2
              if 0xDC00 ≤ m ∧ m < 0xE000 then
                (scanStr fuel rest2).map fun p =>
                  (Char.ofNat (0x10000 + (n - 0xD800) * 0x400 + (m - 0xDC00)) :: p.1, p.2)
              else
                (scanStr fuel ('\\' :: 'u' :: d1 :: d2 :: d3 :: d4 :: rest2)).map fun p =>
                  (replChar :: p.1, p.2)
            | _, _, _, _ => none)
         | '\\' :: 'u' :: _ => none
         | _ => (scanStr fuel rest).map fun p => (replChar :: p.1, p.2)
       else if 0xDC00 ≤ n ∧ n < 0xE000 then
         (scanStr fuel rest).map fun p => (replChar :: p.1, p.2)
       else
         (scanStr fuel rest).map fun p => (Char.ofNat n :: p.1, p.2)
     | _, _, _, _ => none)
  | fuel + 1, '\\' :: e :: rest =>
    (match
      (if e = '"' then some '"'
       else if e = '\\' then some '\\'
       else if e = '/' then some '/'
       else if e = 'b' then some '\x08'
       else if e = 'f' then some '\x0c'
       else if e = 'n' then some '\n'
       else if e = 'r' then some '\r'
       else if e = 't' then some '\t'
       else none) with
     | some c => (scanStr fuel rest).map fun p => (c :: p.1, p.2)
     | none => none)
  | fuel + 1, c :: rest =>
    if c.toNat < 0x20 then none
    else (scanStr fuel rest).map fun p => (c :: p.1, p.2)

/-- Scan the integer part of a JSON number after an optional sign:
`0` or a nonzero digit followed by digits. -/
def scanIntPart : List Char → Option (Nat × List Char)
  | '0' :: rest => some (0, rest)
  | c :: rest =>
    if c.isDigit then
      some (((rest.takeWhile fun d => d.isDigit).foldl
        (fun acc d => acc * 10 + (d.toNat - 48)) (c.toNat - 48)),
        rest.dropWhile fun d => d.isDigit)
    else none
  | [] => none

/-- Scan a nonempty digit run, returning its characters. -/
def scanDigitRun (l : List Char) : Option (List Char × List Char) :=
  match l.takeWhile fun d => d.isDigit with
  | [] => none
  | ds => some (ds, l.dropWhile fun d => d.isDigit)

/-- Scan a JSON number after the optional leading minus, per the CPython
scanner regex `(-?(?:0|[1-9]\d*))(\.\d+)?([eE][-+]?\d+)?`. -/
def scanNumTail (neg : Bool) (l : List Char) : Option (Json × List Char) :=
  match scanIntPart l with
  | none => none
  | some (ip, rest) =>
    let ipz : Int := if neg then -(ip : Int) else (ip : Int)
    let fracPart : Option (List Char × List Char) :=
      match rest with
      | '.' :: r2 => scanDigitRun r2
      | _ => none
    let afterFrac := match fracPart with
      | some (_, r) => r
      | none => rest
    let expPart : Option (Int × List Char) :=
      match afterFrac with
      | 'e' :: r2 =>
        (match r2 with
         | '+' :: r3 => (scanDigitRun r3).map fun p =>
             ((p.1.foldl (fun acc d => acc * 10 + (d.toNat - 48)) 0 : Int), p.2)
         | '-' :: r3 => (scanDigitRun r3).map fun p =>
             (-(p.1.foldl (fun acc d => acc * 10 + (d.toNat - 48)) 0 : Int), p.2)
         | _ => (scanDigitRun r2).map fun p =>
             ((p.1.foldl (fun acc d => acc * 10 + (d.toNat - 48)) 0 : Int), p.2))
      | 'E' :: r2 =>
        (match r2 with
         | '+' :: r3 => (scanDigitRun r3).map fun p =>
             ((p.1.foldl (fun acc d => acc * 10 + (d.toNat - 48)) 0 : Int), p.2)
         | '-' :: r3 => (scanDigitRun r3).map fun p =>
             (-(p.1.foldl (fun acc d => acc * 10 + (d.toNat - 48)) 0 : Int), p.2)
         | _ => (scanDigitRun r2).map fun p =>
             ((p.1.foldl (fun acc d => acc * 10 + (d.toNat - 48)) 0 : Int), p.2))
      | _ => none
    match fracPart, expPart with
    | none, none => some (Json.num ipz, rest)
    | some (fd, r), none => some (Json.fnum ipz (ofChars fd) 0, r)
    | none, some (ex, r) => some (Json.fnum ipz "" ex, r)
    | some (fd, _), some (ex, r) => some (Json.fnum ipz (ofChars fd) ex, r)

mutual

/-- Parse one JSON value (fuel-indexed; the fuel passed by `pyJsonLoads`
always suffices because every recursive step first consumes input). -/
def jsonValue : Nat → List Char → Option (Json × List Char)
  | 0, _ => none
  | fuel + 1, l =>
    match l with
    | [] => none
    | '"' :: rest => (scanStr (rest.length + 1) rest).map fun p => (Json.str (ofChars p.1), p.2)
    | '{' :: rest => jsonMembers fuel (skipWs rest) true
    | '[' :: rest => jsonItems fuel (skipWs rest) true
    | 'n' :: 'u' :: 'l' :: 'l' :: rest => some (Json.null, rest)
    | 't' :: 'r' :: 'u' :: 'e' :: rest => some (Json.bool true, rest)
    | 'f' :: 'a' :: 'l' :: 's' :: 'e' :: rest => some (Json.bool false, rest)
    | 'N' :: 'a' :: 'N' :: rest => some (Json.nan, rest)
    | 'I' :: 'n' :: 'f' :: 'i' :: 'n' :: 'i' :: 't' :: 'y' :: rest =>
      some (Json.inf false, rest)
    | '-' :: 'I' :: 'n' :: 'f' :: 'i' :: 'n' :: 'i' :: 't' :: 'y' :: rest =>
      some (Json.inf true, rest)
    | '-' :: rest => scanNumTail true rest
    | c :: _ => if c.isDigit then scanNumTail false l else none

/-- Parse the members of a JSON object after `'{'` (whitespace already
skipped); `first` is true before the first member. -/
def jsonMembers : Nat → List Char → Bool → Option (Json × List Char)
  | 0, _, _ => none
  | _ + 1, '}' :: rest, true => some (Json.obj [], rest)
  | fuel + 1, l, _ =>
    match l with
    | '"' :: rest =>
      match scanStr (rest.length + 1) rest with
      | none => none
      | some (k, r1) =>
        match skipWs r1 with
        | ':' :: r2 =>
          match jsonValue fuel (skipWs r2) with
          | none => none
          | some (v, r3) =>
            match skipWs r3 with
            | ',' :: r4 =>
              (match jsonMembers fuel (skipWs r4) false with
               | some (Json.obj fs, r5) => some (Json.obj ((ofChars k, v) :: fs), r5)
               | _ => none)
            | '}' :: r4 => some (Json.obj [(ofChars k, v)], r4)
            | _ => none
        | _ => none
    | _ => none

/-- Parse the items of a JSON array after `'['` (whitespace already
skipped); `first` is true before the first item. -/
def jsonItems : Nat → List Char → Bool → Option (Json × List Char)
  | 0, _, _ => none
  | _ + 1, ']' :: rest, true => some (Json.arr [], rest)
  | fuel + 1, l, _ =>
    match jsonValue fuel l with
    | none => none
    | some (v, r1) =>
      match skipWs r1 with
      | ',' :: r2 =>
        (match jsonItems fuel (skipWs r2) false with
         | some (Json.arr vs, r3) => some (Json.arr (v :: vs), r3)
         | _ => none)
      | ']' :: r2 => some (Json.arr [v], r2)
      | _ => none

end

/-- Model of `json.loads(s)`: parse one JSON document, allowing
surrounding whitespace, rejecting trailing data; `none` models the
raised `JSONDecodeError`. -/
def pyJsonLoads (s : String) : Option Json :=
  match jsonValue (s.data.length + 1) (skipWs s.data) with
  | some (v, rest) => if skipWs rest = [] then some v else none
  | none => none

/-- Python truthiness of a decoded JSON value. -/
def pyTruthy : Json → Bool
  | .null => false
  | .bool b => b
  | .num n => decide (n ≠ 0)
  | .fnum ip frac _ => !(decide (ip = 0) && frac.data.all fun c => c = '0')
  | .nan => true
  | .inf _ => true
  | .str s => decide (s ≠ "")
  | .arr l => !l.isEmpty
  | .obj l => !l.isEmpty

/-- Last-occurrence lookup in a decoded object's field list (model of
`dict.get` on the dictionary `json.loads` builds, where later duplicate
keys overwrite earlier ones). -/
def objGet : List (String × Json) → String → Option Json
  | [], _ => none
  | (k1, v1) :: rest, k =>
    match objGet rest k with
    | some v => some v
    | none => if k1 = k then some v1 else none

/-! ### Python `str()` / `repr` on decoded values -/

/-- Escape one character of a Python string literal under quote `q`
(ASCII fragment of CPython repr escaping). -/
def pyEscChar (q c : Char) : List Char :=
  if c = '\\' then ['\\', '\\']
  else if c = q then ['\\', q]
  else if c = '\n' then ['\\', 'n']
  else if c = '\r' then ['\\', 'r']
  else if c = '\t' then ['\\', 't']
  else if c.toNat < 0x20 ∨ c.toNat = 0x7F then ['\\', 'x', hexChar (c.toNat / 16), hexChar c.toNat]
  else [c]

/-- Model of Python `repr` of a `str` (single quotes unless the string
contains one and no double quote, per CPython). -/
def pyReprStr (s : String) : String :=
  let q := if s.data.contains '\'' ∧ ¬ s.data.contains '"' then '"' else '\''
  ofChars (q :: s.data.foldr (fun c acc => pyEscChar q c ++ acc) [q])

/-- Syntactic rendering of a non-integral JSON number.  (CPython renders
floats by shortest round-trip; no claim depends on this rendering, which
keeps the parsed literal's components.) -/
def floatLit (ip : Int) (frac : String) (ex : Int) : String :=
  toString ip ++ "." ++ (if frac = "" then "0" else frac) ++
    (if ex = 0 then "" else "e" ++ toString ex)

mutual

/-- Model of Python `repr` on decoded JSON values (reached by `str()`
only for list and dict values, outside this protocol's identities). -/
def pyRepr : Json → String
  | .null => "None"
  | .bool true => "True"
  | .bool false => "False"
  | .num n => toString n
  | .fnum ip frac ex => floatLit ip frac ex
  | .nan => "nan"
  | .inf true => "-inf"
  | .inf false => "inf"
  | .str s => pyReprStr s
  | .arr l => "[" ++ pyReprItems l ++ "]"
  | .obj l => "\x7b" ++ pyReprFields l ++ "\x7d"

/-- Comma-joined reprs of list items. -/
def pyReprItems : List Json → String
  | [] => ""
  | [v] => pyRepr v
  | v :: rest => pyRepr v ++ ", " ++ pyReprItems rest

/-- Comma-joined reprs of dict entries. -/
def pyReprFields : List (String × Json) → String
  | [] => ""
  | [(k, v)] => pyReprStr k ++ ": " ++ pyRepr v
  | (k, v) :: rest => pyReprStr k ++ ": " ++ pyRepr v ++ ", " ++ pyReprFields rest

end

/-- Model of Python `str()` on a decoded JSON value. -/
def pyStr : Json → String
  | .str s => s
  | v => pyRepr v

/-- Model of `str(x)` where `x` may be `None`. -/
def pyStrOpt : Option Json → String
  | none => "None"
  | some v => pyStr v

/-! ### The program: the core of `backend/app.py` -/

/-- Code-point lexicographic comparison of character lists: exactly how
Python compares two `str` values. -/
def cpLe : List Char → List Char → Bool
  | [], _ => true
  | _ :: _, [] => false
  | c1 :: r1, c2 :: r2 => if c1 < c2 then true else if c2 < c1 then false else cpLe r1 r2

/-- Ordering of pairs by key, as used by
`pairs.sort(key=lambda kv: kv[0])`.  Python compares strings
lexicographically by code point; `list.sort` is stable, as is
`List.insertionSort` with this non-strict order. -/
def keyLe (a b : String × String) : Prop := cpLe a.1.data b.1.data = true

instance : DecidableRel keyLe := fun a b =>
  inferInstanceAs (Decidable (cpLe a.1.data b.1.data = true))

/-- The parsed pairs excluding keys `hash` and `signature`
(`k not in ("hash", "signature")`). -/
def filteredPairs (pairs : List (String × String)) : List (String × String) :=
  pairs.filter fun kv => ¬(kv.1 = "hash" ∨ kv.1 = "signature")

/-- Join strings with a separator (model of `sep.join(...)`). -/
def joinSep (sep : String) : List String → String
  | [] => ""
  | [s] => s
  | s :: rest => s ++ sep ++ joinSep sep rest

/-- Canonical data-check string of a pair list: filter out
`hash`/`signature`, sort by key, render `k=v`, join with newlines. -/
def dcsOfPairs (pairs : List (String × String)) : String :=
  joinSep "\n" ((List.insertionSort keyLe (filteredPairs pairs)).map fun kv =>
    kv.1 ++ "=" ++ kv.2)

/-- Model of `build_data_check_string(init_data)`.  The Python function
returns `(data_check_string, dict(pairs_all))`; the dict is modelled as
the pair list `pairs_all` itself, read through the last-wins `dictGet`. -/
def build_data_check_string (init_data : String) : String × List (String × String) :=
  (dcsOfPairs (parse_qsl init_data), parse_qsl init_data)

/-- Model of `derive_secret_key(bot_token)`:
`hmac.new(b"WebAppData", bot_token.encode(), hashlib.sha256).digest()`. -/
def derive_secret_key (bot_token : String) : List Nat :=
  hmacSha256 (strBytes "WebAppData") (strBytes bot_token)

/-- The error kinds `verify_init_data` raises as `HTTPException`s:
`no_hash` (400), `bad_hash` (401), `expired` (401). -/
inductive VerifyError where
  | missingSignature
  | badSignature
  | expired
  deriving Repr, DecidableEq

/-- Successful verification result: the decoded `user` JSON value (or
`None`) and the parsed parameters. -/
structure Verified where
  user : Option Json
  params : List (String × String)
  deriving Repr

/-- The lower-cased provided hash: `(params.get("hash") or "").lower()`. -/
def providedHash (params : List (String × String)) : String :=
  asciiLower (pyOrStr (dictGet params "hash") "")

/-- The recomputed digest:
`hmac.new(secret_key, dcs.encode(), hashlib.sha256).hexdigest()`. -/
def expectedHash (bot_token dcs : String) : String :=
  hexStr (hmacSha256 (derive_secret_key bot_token) (strBytes dcs))

/-- The parsed freshness stamp: `int(params.get("auth_date") or "0")`
with `ValueError` mapped to 0. -/
def authDateVal (params : List (String × String)) : Int :=
  pyIntOr0 (pyOrStr (dictGet params "auth_date") "0")

/-- The decoded `user` parameter: `json.loads(user_raw)` when present
and nonempty, `None` when absent, empty or malformed. -/
def userVal (params : List (String × String)) : Option Json :=
  match dictGet params "user" with
  | none => none
  | some s => if s = "" then none else pyJsonLoads s

/-- Model of `verify_init_data(init_data, bot_token, ttl_sec)`.  The
wall-clock reading `int(time.time())` is the explicit `now`. -/
def verify_init_data (init_data bot_token : String) (ttl_sec now : Int) :
    Except VerifyError Verified :=
  let dcs := (build_data_check_string init_data).1
  let params := (build_data_check_string init_data).2
  if providedHash params = "" then .error .missingSignature
  else if expectedHash bot_token dcs ≠ providedHash params then .error .badSignature
  else if authDateVal params = 0 ∨ now - authDateVal params > ttl_sec then .error .expired
  else .ok ⟨userVal params, params⟩

/-- Python-level exceptions raised inside `make_jwt` when the decoded
`user` is not a dictionary of the expected shape. -/
inductive PyErr where
  | attributeError
  | typeError
  deriving Repr, DecidableEq

/-- The claim set of the issued session token: the payload passed to
`jwt.encode(payload, secret, algorithm="HS256")` (the JWS encoding is
the external PyJWT library). -/
structure JwtClaims where
  sub : String
  name : String
  iat : Int
  exp : Int
  tgId : Option Json
  tgUsername : Option Json
  deriving Repr

/-- Model of `user.get(k)`: raises `AttributeError` unless `user` is a
dict. -/
def pyGet (user : Json) (k : String) : Except PyErr (Option Json) :=
  match user with
  | .obj fields => .ok (objGet fields k)
  | _ => .error .attributeError

/-- Model of `user.get(k, default)`. -/
def pyGetD (user : Json) (k : String) (d : Json) : Except PyErr Json :=
  match user with
  | .obj fields => .ok ((objGet fields k).getD d)
  | _ => .error .attributeError

/-- Model of `make_jwt(user, secret)`: builds the claim payload.  `now`
models `int(time.time())`; the `secret` feeds only the external
`jwt.encode` and does not influence the claims. -/
def make_jwt (user : Json) (secret : String) (now : Int) : Except PyErr JwtClaims := do
  let sub ←
    if pyTruthy user then do
      let v ← pyGet user "id"
      pure (pyStrOpt v)
    else pure "guest"
  let nm ←
    if pyTruthy user then do
      let f ← pyGetD user "first_name" (Json.str "")
      let l ← pyGetD user "last_name" (Json.str "")
      match f, l with
      | .str fs, .str ls => pure (pyStrip (fs ++ " " ++ ls))
      | _, _ => .error .typeError
    else pure "Гость Dev"
  let tgId ← if pyTruthy user then pyGet user "id" else pure none
  let tgU ← if pyTruthy user then pyGet user "username" else pure none
  pure ⟨sub, nm, now, now + 60 * 60 * 24 * 30, tgId, tgU⟩

/-- Error kinds surfaced by the `/auth/telegram` endpoint. -/
inductive AuthError where
  | noInitData
  | botTokenNotConfigured
  | verify (e : VerifyError)
  | py (e : PyErr)
  deriving Repr, DecidableEq

/-- A successful authentication: the issued token's claims, the cookie
max-age in seconds, and the `user` value echoed in the response body. -/
structure AuthResult where
  claims : JwtClaims
  cookieMaxAge : Int
  user : Json
  deriving Repr

/-- The guest identity of the dev fallback. -/
def guestUser : Json :=
  Json.obj [("id", Json.num 1), ("first_name", Json.str "Гость"), ("last_name", Json.str "Dev")]

/-- Python falsiness of the optional `initData` field
(`not data.initData`: absent or empty). -/
def initDataFalsy : Option String → Bool
  | none => true
  | some s => decide (s = "")

/-- Model of the `auth_telegram` endpoint body: guest fallback, error
paths, verification, token issuance.  The configuration values
(`DEV_ALLOW_ANON`, `BOT_TOKEN`, `SESSION_SECRET`, `INITDATA_TTL_SEC`)
and the wall clock are explicit parameters. -/
def auth_telegram (initData : Option String) (devAllowAnon : Bool)
    (botToken sessionSecret : String) (ttlSec now : Int) : Except AuthError AuthResult :=
  if initDataFalsy initData ∧ devAllowAnon then
    match make_jwt guestUser sessionSecret now with
    | .ok c => .ok ⟨c, 60 * 60 * 24 * 30, guestUser⟩
    | .error e => .error (.py e)
  else if initDataFalsy initData then .error .noInitData
  else if botToken = "" then .error .botTokenNotConfigured
  else
    match verify_init_data (initData.getD "") botToken ttlSec now with
    | .error e => .error (.verify e)
    | .ok v =>
      let user := match v.user with
        | none => Json.obj []
        | some j => if pyTruthy j then j else Json.obj []
      match make_jwt user sessionSecret now with
      | .ok c => .ok ⟨c, 60 * 60 * 24 * 30, user⟩
      | .error e => .error (.py e)

/-! ### Spec-side serialization, for the round-trip claims -/

/-- The sixteen upper-case hex digits. -/
def hexUpperChars : List Char := "0123456789ABCDEF".data

/-- Upper-case hex digit of a nibble. -/
def hexUpperChar (n : Nat) : Char := hexUpperChars.getD (n % 16) '0'

/-- Percent-encode every byte of a string's UTF-8 encoding.  Spec-side
serializer (`serialize(P, signedWith=S)`): fully-escaped fields decode
back exactly under `parse_qsl`. -/
def pctEncode (s : String) : String :=
  ofChars ((strBytes s).foldr (fun b acc => '%' :: hexUpperChar (b / 16) :: hexUpperChar b :: acc) [])

/-- Render a parameter list as a query string, every key and value fully
percent-encoded. -/
def serializeParams (P : List (String × String)) : String :=
  joinSep "&" (P.map fun kv => pctEncode kv.1 ++ "=" ++ pctEncode kv.2)

/-- Sign a parameter list with the bot token: append `&hash=<hmac hex>`
over the canonical data-check string, as the platform host would. -/
def signPayload (P : List (String × String)) (botToken : String) : String :=
  serializeParams P ++ "&hash=" ++ expectedHash botToken (dcsOfPairs P)

/-- Strict-on-keys refinement of `keyLe` (used to compare sorted runs
with pairwise-distinct keys). -/
def keyLt (a b : String × String) : Prop := keyLe a b ∧ a.1 ≠ b.1

/-- Is the decoded value a JSON object (a Python dict)? -/
def jsonIsObj : Json → Bool
  | .obj _ => true
  | _ => false

/-- Number of positions at which two character lists differ (counting
length mismatch); `diffCount l1 l2 = 1` states that `l2` is `l1` with
exactly one character changed. -/
def diffCount (l1 l2 : List Char) : Nat :=
  ((l1.zip l2).filter fun q => ¬(q.1 = q.2)).length +
    (l1.length - l2.length) + (l2.length - l1.length)

/-! ### Infrastructure lemmas -/

theorem ofChars_data (l : List Char) : (ofChars l).data = l := rfl

theorem string_eq_of_data {s t : String} (h : s.data = t.data) : s = t := by
  cases s
  cases t
  exact congrArg String.mk h

theorem asciiLower_eq_self (s : String) (h : ∀ c ∈ s.data, asciiLowerChar c = c) :
    asciiLower s = s := by
  apply string_eq_of_data
  rw [asciiLower, ofChars_data]
  exact (List.map_congr_left h).trans (List.map_id _)

theorem hexChar_mem (n : Nat) : hexChar n ∈ hexLowerChars := by
  have h : n % 16 = 0 ∨ n % 16 = 1 ∨ n % 16 = 2 ∨ n % 16 = 3 ∨ n % 16 = 4 ∨ n % 16 = 5 ∨
      n % 16 = 6 ∨ n % 16 = 7 ∨ n % 16 = 8 ∨ n % 16 = 9 ∨ n % 16 = 10 ∨ n % 16 = 11 ∨
      n % 16 = 12 ∨ n % 16 = 13 ∨ n % 16 = 14 ∨ n % 16 = 15 := by omega
  unfold hexChar
  rcases h with h|h|h|h|h|h|h|h|h|h|h|h|h|h|h|h <;> rw [h] <;> decide

theorem hexDigitVal_hexUpperChar (n : Nat) : hexDigitVal (hexUpperChar n) = some (n % 16) := by
  have h : n % 16 = 0 ∨ n % 16 = 1 ∨ n % 16 = 2 ∨ n % 16 = 3 ∨ n % 16 = 4 ∨ n % 16 = 5 ∨
      n % 16 = 6 ∨ n % 16 = 7 ∨ n % 16 = 8 ∨ n % 16 = 9 ∨ n % 16 = 10 ∨ n % 16 = 11 ∨
      n % 16 = 12 ∨ n % 16 = 13 ∨ n % 16 = 14 ∨ n % 16 = 15 := by omega
  unfold hexUpperChar
  rcases h with h|h|h|h|h|h|h|h|h|h|h|h|h|h|h|h <;> rw [h] <;> decide

theorem hexLower_props : ∀ c ∈ hexLowerChars,
    asciiLowerChar c = c ∧ c ≠ '&' ∧ c ≠ '=' ∧ c ≠ '%' ∧ c ≠ '+' := by decide

theorem hexUpper_props : ∀ c ∈ hexUpperChars, c ≠ '&' ∧ c ≠ '=' ∧ c ≠ '+' := by decide

theorem hexStr_data_cons (b : Nat) (rest : List Nat) :
    (hexStr (b :: rest)).data = hexChar (b / 16) :: hexChar b :: (hexStr rest).data := rfl

theorem hexStr_chars (bs : List Nat) : ∀ c ∈ (hexStr bs).data, c ∈ hexLowerChars := by
  induction bs with
  | nil => intro c hc; cases hc
  | cons b rest ih =>
    intro c hc
    rw [hexStr_data_cons] at hc
    simp only [List.mem_cons] at hc
    rcases hc with h | h | hc
    · exact h ▸ hexChar_mem _
    · exact h ▸ hexChar_mem _
    · exact ih c hc

theorem hexStr_ne_empty {bs : List Nat} (h : bs ≠ []) : hexStr bs ≠ "" := by
  cases bs with
  | nil => exact absurd rfl h
  | cons b rest =>
    intro he
    have h2 := congrArg String.data he
    rw [hexStr_data_cons] at h2
    exact List.noConfusion h2

theorem sha256_ne_nil (m : List Nat) : sha256 m ≠ [] := by
  intro h
  simp [sha256, wordBytes] at h

theorem expectedHash_ne_empty (bt d : String) : expectedHash bt d ≠ "" := by
  unfold expectedHash hmacSha256
  exact hexStr_ne_empty (sha256_ne_nil _)

theorem asciiLower_expectedHash (bt d : String) :
    asciiLower (expectedHash bt d) = expectedHash bt d :=
  asciiLower_eq_self _ fun c hc => (hexLower_props c (hexStr_chars _ c hc)).1

theorem expectedHash_chars (bt d : String) :
    ∀ c ∈ (expectedHash bt d).data, c ∈ hexLowerChars := hexStr_chars _

theorem dictGet_append (l1 l2 : List (String × String)) (k : String) :
    dictGet (l1 ++ l2) k =
      match dictGet l2 k with
      | some v => some v
      | none => dictGet l1 k := by
  induction l1 with
  | nil => cases h : dictGet l2 k <;> simp [dictGet, h]
  | cons p rest ih =>
    cases p with
    | mk k1 v1 =>
      rw [List.cons_append, dictGet, ih]
      cases h : dictGet l2 k <;> cases h2 : dictGet rest k <;> simp [dictGet, h, h2]

theorem dictGet_mem {l : List (String × String)} {k v : String}
    (h : dictGet l k = some v) : (k, v) ∈ l := by
  induction l with
  | nil => cases h
  | cons p rest ih =>
    cases p with
    | mk k1 v1 =>
      rw [dictGet] at h
      cases h2 : dictGet rest k with
      | some v2 =>
        rw [h2] at h
        cases h
        exact List.mem_cons_of_mem _ (ih h2)
      | none =>
        rw [h2] at h
        by_cases he : k1 = k
        · rw [if_pos he] at h
          cases h
          subst he
          exact List.mem_cons_self _ _
        · rw [if_neg he] at h
          cases h

theorem dictGet_append_hash (P : List (String × String)) (H : String) (k : String) :
    dictGet (P ++ [("hash", H)]) k = if k = "hash" then some H else dictGet P k := by
  rw [dictGet_append]
  by_cases h : k = "hash"
  · subst h
    simp [dictGet]
  · have : dictGet [("hash", H)] k = none := by
      simp [dictGet]
      intro h2
      exact absurd h2.symm h
    rw [this, if_neg h]

theorem ofChars_self (s : String) : ofChars s.data = s := rfl

theorem utf8Encode_lt_256 (l : List Char) : ∀ b ∈ utf8Encode l, b < 256 := by
  induction l with
  | nil => intro b hb; cases hb
  | cons c cs ih =>
    intro b hb
    rw [utf8Encode] at hb
    rcases List.mem_append.mp hb with h | h
    · exact utf8EncodeChar_lt_256 c b h
    · exact ih b h

theorem hexUpperChar_mem (n : Nat) : hexUpperChar n ∈ hexUpperChars := by
  have h : n % 16 = 0 ∨ n % 16 = 1 ∨ n % 16 = 2 ∨ n % 16 = 3 ∨ n % 16 = 4 ∨ n % 16 = 5 ∨
      n % 16 = 6 ∨ n % 16 = 7 ∨ n % 16 = 8 ∨ n % 16 = 9 ∨ n % 16 = 10 ∨ n % 16 = 11 ∨
      n % 16 = 12 ∨ n % 16 = 13 ∨ n % 16 = 14 ∨ n % 16 = 15 := by omega
  unfold hexUpperChar
  rcases h with h|h|h|h|h|h|h|h|h|h|h|h|h|h|h|h <;> rw [h] <;> decide

theorem pctScan_pct (c1 c2 : Char) (rest : List Char) :
    pctScan ('%' :: c1 :: c2 :: rest) =
      match hexDigitVal c1, hexDigitVal c2 with
      | some h, some l => (h * 16 + l) :: pctScan rest
      | _, _ => utf8EncodeChar '%' ++ pctScan (c1 :: c2 :: rest) := rfl

theorem pctScan_cons_ne (c : Char) (rest : List Char) (h : c ≠ '%') :
    pctScan (c :: rest) = utf8EncodeChar c ++ pctScan rest := by
  simp [pctScan, h]

theorem pctScan_no_pct (l : List Char) (h : '%' ∉ l) : pctScan l = utf8Encode l := by
  induction l with
  | nil => rfl
  | cons c rest ih =>
    have hc : c ≠ '%' := fun he => h (by rw [← he]; exact List.mem_cons_self _ _)
    have hr : '%' ∉ rest := fun hm => h (List.mem_cons_of_mem _ hm)
    rw [pctScan_cons_ne c rest hc, utf8Encode, ih hr]

theorem unquote_no_pct (s : String) (h : '%' ∉ s.data) : unquote s = s := by
  apply string_eq_of_data
  rw [unquote, ofChars_data, pctScan_no_pct _ h]
  exact utf8Decode_encode s.data

theorem plusToSpace_no_plus (s : String) (h : '+' ∉ s.data) : plusToSpace s = s := by
  apply string_eq_of_data
  rw [plusToSpace, ofChars_data]
  refine (List.map_congr_left ?_).trans (List.map_id _)
  intro c hc
  exact if_neg fun he => h (by rw [← he]; exact hc)

theorem pctScan_encode (bytes : List Nat) (rest : List Char) (hb : ∀ b ∈ bytes, b < 256) :
    pctScan ((bytes.foldr (fun b acc => '%' :: hexUpperChar (b / 16) :: hexUpperChar b :: acc)
      []) ++ rest) = bytes ++ pctScan rest := by
  induction bytes with
  | nil => simp
  | cons b bs ih =>
    have hb1 : b < 256 := hb b (List.mem_cons_self _ _)
    have hbs : ∀ x ∈ bs, x < 256 := fun x hx => hb x (List.mem_cons_of_mem _ hx)
    have hhi : hexDigitVal (hexUpperChar (b / 16)) = some (b / 16) := by
      rw [hexDigitVal_hexUpperChar]
      congr 1
      omega
    have hlo : hexDigitVal (hexUpperChar b) = some (b % 16) := hexDigitVal_hexUpperChar b
    simp only [List.foldr_cons, List.cons_append]
    rw [pctScan_pct, hhi, hlo]
    have hval : b / 16 * 16 + b % 16 = b := by omega
    show (b / 16 * 16 + b % 16) ::
        pctScan ((bs.foldr (fun x acc => '%' :: hexUpperChar (x / 16) :: hexUpperChar x :: acc)
          []) ++ rest) = _
    rw [hval, ih hbs]

theorem strBytes_lt_256 (s : String) : ∀ b ∈ strBytes s, b < 256 := utf8Encode_lt_256 s.data

theorem unquote_pctEncode (s : String) : unquote (pctEncode s) = s := by
  apply string_eq_of_data
  rw [unquote, ofChars_data, pctEncode, ofChars_data]
  have h := pctScan_encode (strBytes s) [] (strBytes_lt_256 s)
  rw [List.append_nil] at h
  rw [h, show pctScan [] = [] from rfl, List.append_nil]
  exact utf8Decode_encode s.data

theorem pctEncode_chars (s : String) :
    ∀ c ∈ (pctEncode s).data, c = '%' ∨ c ∈ hexUpperChars := by
  rw [pctEncode, ofChars_data]
  generalize strBytes s = bytes
  induction bytes with
  | nil => intro c hc; cases hc
  | cons b bs ih =>
    intro c hc
    simp only [List.foldr_cons, List.mem_cons] at hc
    rcases hc with h | h | h | h
    · exact Or.inl h
    · exact Or.inr (by rw [h]; exact hexUpperChar_mem _)
    · exact Or.inr (by rw [h]; exact hexUpperChar_mem _)
    · exact ih c h

theorem pctEncode_no_amp (s : String) : '&' ∉ (pctEncode s).data := by
  intro h
  rcases pctEncode_chars s '&' h with h2 | h2
  · exact absurd h2 (by decide)
  · exact absurd h2 (by decide)

theorem pctEncode_no_eq (s : String) : '=' ∉ (pctEncode s).data := by
  intro h
  rcases pctEncode_chars s '=' h with h2 | h2
  · exact absurd h2 (by decide)
  · exact absurd h2 (by decide)

theorem pctEncode_no_plus (s : String) : '+' ∉ (pctEncode s).data := by
  intro h
  rcases pctEncode_chars s '+' h with h2 | h2
  · exact absurd h2 (by decide)
  · exact absurd h2 (by decide)

theorem splitAmp_cons_amp (rest : List Char) : splitAmp ('&' :: rest) = [] :: splitAmp rest := by
  simp [splitAmp]

theorem splitAmp_cons_ne (c : Char) (rest : List Char) (h : c ≠ '&') :
    splitAmp (c :: rest) =
      match splitAmp rest with
      | [] => [[c]]
      | f :: fs => (c :: f) :: fs := by
  simp [splitAmp, h]

theorem splitAmp_no_amp (l : List Char) (h : '&' ∉ l) : splitAmp l = [l] := by
  induction l with
  | nil => rfl
  | cons c rest ih =>
    have hc : c ≠ '&' := fun he => h (by rw [← he]; exact List.mem_cons_self _ _)
    have hr : '&' ∉ rest := fun hm => h (List.mem_cons_of_mem _ hm)
    rw [splitAmp_cons_ne c rest hc, ih hr]

theorem splitAmp_append_amp (a rest : List Char) (h : '&' ∉ a) :
    splitAmp (a ++ '&' :: rest) = a :: splitAmp rest := by
  induction a with
  | nil => rw [List.nil_append, splitAmp_cons_amp]
  | cons c atl ih =>
    have hc : c ≠ '&' := fun he => h (by rw [← he]; exact List.mem_cons_self _ _)
    have ha : '&' ∉ atl := fun hm => h (List.mem_cons_of_mem _ hm)
    rw [List.cons_append, splitAmp_cons_ne c _ hc, ih ha]

theorem eqSplit_cons_eq (rest : List Char) : eqSplit ('=' :: rest) = ([], true, rest) := by
  simp [eqSplit]

theorem eqSplit_cons_ne (c : Char) (rest : List Char) (h : c ≠ '=') :
    eqSplit (c :: rest) =
      (c :: (eqSplit rest).1, (eqSplit rest).2.1, (eqSplit rest).2.2) := by
  simp [eqSplit, h]

theorem eqSplit_append (a b : List Char) (h : '=' ∉ a) : eqSplit (a ++ '=' :: b) = (a, true, b) := by
  induction a with
  | nil => rw [List.nil_append, eqSplit_cons_eq]
  | cons c atl ih =>
    have hc : c ≠ '=' := fun he => h (by rw [← he]; exact List.mem_cons_self _ _)
    have ha : '=' ∉ atl := fun hm => h (List.mem_cons_of_mem _ hm)
    rw [List.cons_append, eqSplit_cons_ne c _ hc, ih ha]

theorem fieldToPair_encoded (k v : String) :
    fieldToPair ((pctEncode k).data ++ '=' :: (pctEncode v).data) = (k, v) := by
  rw [fieldToPair, eqSplit_append _ _ (pctEncode_no_eq k)]
  dsimp only
  rw [ofChars_self, ofChars_self, plusToSpace_no_plus _ (pctEncode_no_plus k),
    plusToSpace_no_plus _ (pctEncode_no_plus v), unquote_pctEncode, unquote_pctEncode]

theorem fieldToPair_hashField (H : String) (hH : ∀ c ∈ H.data, c ∈ hexLowerChars) :
    fieldToPair ('h' :: 'a' :: 's' :: 'h' :: '=' :: H.data) = ("hash", H) := by
  have he : eqSplit ('h' :: 'a' :: 's' :: 'h' :: '=' :: H.data) =
      (['h', 'a', 's', 'h'], true, H.data) := by
    have h2 := eqSplit_append ['h', 'a', 's', 'h'] H.data (by decide)
    simpa using h2
  rw [fieldToPair, he]
  dsimp only
  have hplus : '+' ∉ H.data := fun hm => absurd (hH '+' hm) (by decide)
  have hpct : '%' ∉ H.data := fun hm => absurd (hH '%' hm) (by decide)
  rw [(by decide : unquote (plusToSpace (ofChars ['h', 'a', 's', 'h'])) = "hash"),
    ofChars_self, plusToSpace_no_plus _ hplus, unquote_no_pct _ hpct]

theorem encodedField_ne_nil (k v : String) :
    (pctEncode k).data ++ '=' :: (pctEncode v).data ≠ [] := by
  cases h : (pctEncode k).data <;> simp

theorem hashField_no_amp (H : String) (hH : ∀ c ∈ H.data, c ∈ hexLowerChars) :
    '&' ∉ 'h' :: 'a' :: 's' :: 'h' :: '=' :: H.data := by
  intro hm
  simp only [List.mem_cons] at hm
  rcases hm with h|h|h|h|h|h
  · exact absurd h (by decide)
  · exact absurd h (by decide)
  · exact absurd h (by decide)
  · exact absurd h (by decide)
  · exact absurd h (by decide)
  · exact absurd (hH '&' h) (by decide)

theorem encodedField_no_amp (k v : String) :
    '&' ∉ (pctEncode k).data ++ '=' :: (pctEncode v).data := by
  intro hm
  rcases List.mem_append.mp hm with h | h
  · exact pctEncode_no_amp k h
  · rcases List.mem_cons.mp h with h2 | h2
    · exact absurd h2 (by decide)
    · exact pctEncode_no_amp v h2

theorem filterMap_drop_empty (l : List (List Char)) :
    (([] : List Char) :: l).filterMap
      (fun f => if f = [] then none else some (fieldToPair f)) =
    l.filterMap fun f => if f = [] then none else some (fieldToPair f) := by
  simp

theorem filterMap_keep (f : List Char) (l : List (List Char)) (h : ¬(f = [])) :
    (f :: l).filterMap (fun g => if g = [] then none else some (fieldToPair g)) =
      fieldToPair f ::
        l.filterMap fun g => if g = [] then none else some (fieldToPair g) := by
  simp [h]

theorem parse_serialize_hash (P : List (String × String)) (H : String)
    (hH : ∀ c ∈ H.data, c ∈ hexLowerChars) :
    parse_qsl (serializeParams P ++ "&hash=" ++ H) = P ++ [("hash", H)] := by
  induction P with
  | nil =>
    have hdata : (serializeParams [] ++ "&hash=" ++ H).data =
        '&' :: ('h' :: 'a' :: 's' :: 'h' :: '=' :: H.data) := by
      simp [serializeParams, joinSep]
    rw [parse_qsl, hdata, splitAmp_cons_amp, splitAmp_no_amp _ (hashField_no_amp H hH),
      filterMap_drop_empty, filterMap_keep _ _ (by simp), fieldToPair_hashField H hH]
    rfl
  | cons p ps ih =>
    cases ps with
    | nil =>
      have hdata : (serializeParams [p] ++ "&hash=" ++ H).data =
          ((pctEncode p.1).data ++ '=' :: (pctEncode p.2).data) ++
            '&' :: ('h' :: 'a' :: 's' :: 'h' :: '=' :: H.data) := by
        simp [serializeParams, joinSep]
      rw [parse_qsl, hdata, splitAmp_append_amp _ _ (encodedField_no_amp p.1 p.2),
        splitAmp_no_amp _ (hashField_no_amp H hH),
        filterMap_keep _ _ (encodedField_ne_nil p.1 p.2),
        filterMap_keep _ _ (by simp), fieldToPair_encoded p.1 p.2,
        fieldToPair_hashField H hH]
      rfl
    | cons p2 ps2 =>
      have hdata : (serializeParams (p :: p2 :: ps2) ++ "&hash=" ++ H).data =
          ((pctEncode p.1).data ++ '=' :: (pctEncode p.2).data) ++
            '&' :: (serializeParams (p2 :: ps2) ++ "&hash=" ++ H).data := by
        simp [serializeParams, joinSep]
      rw [parse_qsl, hdata, splitAmp_append_amp _ _ (encodedField_no_amp p.1 p.2),
        filterMap_keep _ _ (encodedField_ne_nil p.1 p.2), fieldToPair_encoded p.1 p.2]
      rw [parse_qsl] at ih
      rw [ih]
      rfl

theorem parse_signPayload (P : List (String × String)) (S : String) :
    parse_qsl (signPayload P S) = P ++ [("hash", expectedHash S (dcsOfPairs P))] :=
  parse_serialize_hash P _ (expectedHash_chars S _)

theorem filteredPairs_append_hash (P : List (String × String)) (H : String) :
    filteredPairs (P ++ [("hash", H)]) = filteredPairs P := by
  rw [filteredPairs, List.filter_append]
  have h : List.filter (fun kv => decide ¬(kv.1 = "hash" ∨ kv.1 = "signature"))
      [("hash", H)] = [] := by simp
  rw [filteredPairs]
  rw [h, List.append_nil]

theorem dcsOfPairs_append_hash (P : List (String × String)) (H : String) :
    dcsOfPairs (P ++ [("hash", H)]) = dcsOfPairs P := by
  rw [dcsOfPairs, dcsOfPairs, filteredPairs_append_hash]

theorem providedHash_append_hash (P : List (String × String)) (H : String) (hne : H ≠ "") :
    providedHash (P ++ [("hash", H)]) = asciiLower H := by
  rw [providedHash, dictGet_append_hash, if_pos rfl]
  simp only [pyOrStr]
  rw [if_neg hne]

theorem authDateVal_append_hash (P : List (String × String)) (H : String) :
    authDateVal (P ++ [("hash", H)]) = authDateVal P := by
  rw [authDateVal, authDateVal, dictGet_append_hash, if_neg (by decide)]

theorem userVal_append_hash (P : List (String × String)) (H : String) :
    userVal (P ++ [("hash", H)]) = userVal P := by
  rw [userVal, userVal, dictGet_append_hash, if_neg (by decide)]

theorem verify_signPayload (P : List (String × String)) (S : String) (ttl now : Int) :
    verify_init_data (signPayload P S) S ttl now =
      if authDateVal P = 0 ∨ now - authDateVal P > ttl then .error .expired
      else .ok ⟨userVal P, P ++ [("hash", expectedHash S (dcsOfPairs P))]⟩ := by
  have hparse := parse_signPayload P S
  have hne := expectedHash_ne_empty S (dcsOfPairs P)
  have hprov : providedHash (parse_qsl (signPayload P S)) = expectedHash S (dcsOfPairs P) := by
    rw [hparse, providedHash_append_hash _ _ hne, asciiLower_expectedHash]
  have hdcs : dcsOfPairs (parse_qsl (signPayload P S)) = dcsOfPairs P := by
    rw [hparse, dcsOfPairs_append_hash]
  have hauth : authDateVal (parse_qsl (signPayload P S)) = authDateVal P := by
    rw [hparse, authDateVal_append_hash]
  have huser : userVal (parse_qsl (signPayload P S)) = userVal P := by
    rw [hparse, userVal_append_hash]
  rw [verify_init_data]
  simp only [build_data_check_string]
  rw [hprov, hdcs, hauth, huser, hparse]
  rw [if_neg hne, if_neg (fun h2 => h2 rfl)]

theorem cpLe_cons_cons (c1 c2 : Char) (r1 r2 : List Char) :
    cpLe (c1 :: r1) (c2 :: r2) =
      if c1 < c2 then true else if c2 < c1 then false else cpLe r1 r2 := rfl

theorem cpLe_total (x : List Char) : ∀ y, cpLe x y = true ∨ cpLe y x = true := by
  induction x with
  | nil => intro y; exact Or.inl rfl
  | cons c1 r1 ih =>
    intro y
    cases y with
    | nil => exact Or.inr rfl
    | cons c2 r2 =>
      rw [cpLe_cons_cons, cpLe_cons_cons]
      rcases lt_trichotomy c1 c2 with h | h | h
      · left
        rw [if_pos h]
      · subst h
        rw [if_neg (lt_irrefl c1), if_neg (lt_irrefl c1), if_neg (lt_irrefl c1),
          if_neg (lt_irrefl c1)]
        exact ih r2
      · right
        rw [if_pos h]

theorem cpLe_trans (x : List Char) :
    ∀ y z, cpLe x y = true → cpLe y z = true → cpLe x z = true := by
  induction x with
  | nil => intro y z h1 h2; rfl
  | cons c1 r1 ih =>
    intro y z h1 h2
    cases y with
    | nil => cases h1
    | cons c2 r2 =>
      cases z with
      | nil => cases h2
      | cons c3 r3 =>
        rw [cpLe_cons_cons] at h1 h2 ⊢
        rcases lt_trichotomy c1 c2 with ha | ha | ha
        · rcases lt_trichotomy c2 c3 with hb | hb | hb
          · rw [if_pos (lt_trans ha hb)]
          · subst hb
            rw [if_pos ha]
          · rw [if_neg (lt_asymm hb), if_pos hb] at h2
            cases h2
        · subst ha
          rw [if_neg (lt_irrefl c1), if_neg (lt_irrefl c1)] at h1
          rcases lt_trichotomy c1 c3 with hb | hb | hb
          · rw [if_pos hb]
          · subst hb
            rw [if_neg (lt_irrefl c1), if_neg (lt_irrefl c1)] at h2 ⊢
            exact ih r2 r3 h1 h2
          · rw [if_neg (lt_asymm hb), if_pos hb] at h2
            cases h2
        · rw [if_neg (lt_asymm ha), if_pos ha] at h1
          cases h1

theorem cpLe_antisymm (x : List Char) : ∀ y, cpLe x y = true → cpLe y x = true → x = y := by
  induction x with
  | nil =>
    intro y h1 h2
    cases y with
    | nil => rfl
    | cons c r => cases h2
  | cons c1 r1 ih =>
    intro y h1 h2
    cases y with
    | nil => cases h1
    | cons c2 r2 =>
      rw [cpLe_cons_cons] at h1 h2
      rcases lt_trichotomy c1 c2 with ha | ha | ha
      · rw [if_neg (lt_asymm ha), if_pos ha] at h2
        cases h2
      · subst ha
        rw [if_neg (lt_irrefl c1), if_neg (lt_irrefl c1)] at h1 h2
        rw [ih r2 h1 h2]
      · rw [if_neg (lt_asymm ha), if_pos ha] at h1
        cases h1

instance : IsTotal (String × String) keyLe := ⟨fun a b => cpLe_total a.1.data b.1.data⟩

instance : IsTrans (String × String) keyLe :=
  ⟨fun a b c h1 h2 => cpLe_trans a.1.data b.1.data c.1.data h1 h2⟩

instance : IsAntisymm (String × String) keyLt :=
  ⟨fun a b h1 h2 =>
    absurd (string_eq_of_data (cpLe_antisymm a.1.data b.1.data h1.1 h2.1)) h1.2⟩

theorem sorted_keyLt_of_nodup {l : List (String × String)}
    (hs : l.Sorted keyLe) (hn : (l.map Prod.fst).Nodup) : l.Sorted keyLt := by
  have hn2 : l.Pairwise fun a b => a.1 ≠ b.1 := List.pairwise_map.mp hn
  exact (hs.and hn2).imp fun h => ⟨h.1, h.2⟩

theorem insertionSort_eq_of_perm {l1 l2 : List (String × String)}
    (hp : l1.Perm l2) (hn : (l1.map Prod.fst).Nodup) :
    List.insertionSort keyLe l1 = List.insertionSort keyLe l2 := by
  have hs1 := List.sorted_insertionSort keyLe l1
  have hs2 := List.sorted_insertionSort keyLe l2
  have hperm : (List.insertionSort keyLe l1).Perm (List.insertionSort keyLe l2) :=
    (List.perm_insertionSort keyLe l1).trans (hp.trans (List.perm_insertionSort keyLe l2).symm)
  have hn1 : ((List.insertionSort keyLe l1).map Prod.fst).Nodup :=
    (((List.perm_insertionSort keyLe l1).map Prod.fst).nodup_iff).mpr hn
  have hn2 : ((List.insertionSort keyLe l2).map Prod.fst).Nodup :=
    (((List.perm_insertionSort keyLe l2).map Prod.fst).nodup_iff).mpr
      (((hp.map Prod.fst).nodup_iff).mp hn)
  exact List.eq_of_perm_of_sorted hperm (sorted_keyLt_of_nodup hs1 hn1)
    (sorted_keyLt_of_nodup hs2 hn2)

theorem dcs_eq_of_perm (p1 p2 : String)
    (hp : (filteredPairs (parse_qsl p1)).Perm (filteredPairs (parse_qsl p2)))
    (hn : ((filteredPairs (parse_qsl p1)).map Prod.fst).Nodup) :
    dcsOfPairs (parse_qsl p1) = dcsOfPairs (parse_qsl p2) := by
  rw [dcsOfPairs, dcsOfPairs, insertionSort_eq_of_perm hp hn]

theorem mem_sorted_of_dictGet {params : List (String × String)} {k v : String}
    (h : dictGet params k = some v) (hk1 : k ≠ "hash") (hk2 : k ≠ "signature") :
    (k, v) ∈ List.insertionSort keyLe (filteredPairs params) := by
  apply (List.perm_insertionSort keyLe _).mem_iff.mpr
  apply List.mem_filter.mpr
  refine ⟨dictGet_mem h, ?_⟩
  simp [hk1, hk2]

theorem verify_missingSignature (p S : String) (ttl now : Int)
    (h1 : providedHash (parse_qsl p) = "") :
    verify_init_data p S ttl now = .error .missingSignature := by
  rw [verify_init_data]
  simp only [build_data_check_string]
  rw [if_pos h1]

theorem verify_badSignature (p S : String) (ttl now : Int)
    (h1 : providedHash (parse_qsl p) ≠ "")
    (h2 : expectedHash S (dcsOfPairs (parse_qsl p)) ≠ providedHash (parse_qsl p)) :
    verify_init_data p S ttl now = .error .badSignature := by
  rw [verify_init_data]
  simp only [build_data_check_string]
  rw [if_neg h1, if_pos h2]

theorem verify_expired (p S : String) (ttl now : Int)
    (h1 : providedHash (parse_qsl p) ≠ "")
    (h2 : expectedHash S (dcsOfPairs (parse_qsl p)) = providedHash (parse_qsl p))
    (h3 : authDateVal (parse_qsl p) = 0 ∨ now - authDateVal (parse_qsl p) > ttl) :
    verify_init_data p S ttl now = .error .expired := by
  rw [verify_init_data]
  simp only [build_data_check_string]
  rw [if_neg h1, if_neg (fun hx => hx h2), if_pos h3]

theorem verify_ok_of (p S : String) (ttl now : Int)
    (h1 : providedHash (parse_qsl p) ≠ "")
    (h2 : expectedHash S (dcsOfPairs (parse_qsl p)) = providedHash (parse_qsl p))
    (h3 : ¬(authDateVal (parse_qsl p) = 0 ∨ now - authDateVal (parse_qsl p) > ttl)) :
    verify_init_data p S ttl now = .ok ⟨userVal (parse_qsl p), parse_qsl p⟩ := by
  rw [verify_init_data]
  simp only [build_data_check_string]
  rw [if_neg h1, if_neg (fun hx => hx h2), if_neg h3]

theorem verify_ok_inv {p S : String} {ttl now : Int} {r : Verified}
    (h : verify_init_data p S ttl now = .ok r) :
    providedHash (parse_qsl p) ≠ "" ∧
      expectedHash S (dcsOfPairs (parse_qsl p)) = providedHash (parse_qsl p) := by
  rw [verify_init_data] at h
  simp only [build_data_check_string] at h
  by_cases h1 : providedHash (parse_qsl p) = ""
  · rw [if_pos h1] at h
    cases h
  · rw [if_neg h1] at h
    by_cases h2 : expectedHash S (dcsOfPairs (parse_qsl p)) ≠ providedHash (parse_qsl p)
    · rw [if_pos h2] at h
      cases h
    · exact ⟨h1, not_not.mp h2⟩

theorem zip_self_filter_ne (l : List Char) :
    ((l.zip l).filter fun q => ¬(q.1 = q.2)) = [] := by
  induction l with
  | nil => rfl
  | cons c rest ih =>
    rw [List.zip_cons_cons, List.filter_cons]
    simp only [decide_not] at ih ⊢
    simp [ih]

theorem diffCount_single (a b : List Char) (c1 c2 : Char) (h : ¬(c1 = c2)) :
    diffCount (a ++ c1 :: b) (a ++ c2 :: b) = 1 := by
  rw [diffCount]
  have hzip : ((a ++ c1 :: b).zip (a ++ c2 :: b)) = (a.zip a) ++ (c1, c2) :: (b.zip b) := by
    rw [List.zip_append rfl, List.zip_cons_cons]
  rw [hzip, List.filter_append, zip_self_filter_ne a, List.filter_cons]
  simp only [List.length_append, List.length_cons]
  rw [zip_self_filter_ne b]
  simp [h]

theorem make_jwt_empty_obj (sec : String) (now : Int) :
    make_jwt (Json.obj []) sec now =
      .ok ⟨"guest", "Гость Dev", now, now + 60 * 60 * 24 * 30, none, none⟩ := rfl

theorem ebind_ok {ε α β : Type} (a : α) (f : α → Except ε β) :
    (Except.ok a >>= fun x => f x) = f a := rfl

theorem ebind_error {ε α β : Type} (e : ε) (f : α → Except ε β) :
    ((Except.error e : Except ε α) >>= fun x => f x) = Except.error e := rfl

theorem make_jwt_guest (sec : String) (now : Int) :
    make_jwt guestUser sec now =
      .ok ⟨"1", "Гость Dev", now, now + 60 * 60 * 24 * 30, some (Json.num 1), none⟩ := by
  simp [make_jwt, guestUser, pyTruthy, pyGet, pyGetD, objGet, pyStrOpt, pyStr,
    ebind_ok, ebind_error, pyRepr]
  exact ⟨by decide, by decide⟩

theorem make_jwt_nonobj {user : Json} (ht : pyTruthy user = true)
    (ho : jsonIsObj user = false) (sec : String) (now : Int) :
    make_jwt user sec now = .error .attributeError := by
  cases user with
  | obj fs => simp [jsonIsObj] at ho
  | null => simp [pyTruthy] at ht
  | bool b => simp [make_jwt, ht, pyGet, ebind_ok, ebind_error]
  | num n => simp [make_jwt, ht, pyGet, ebind_ok, ebind_error]
  | fnum a b c => simp [make_jwt, ht, pyGet, ebind_ok, ebind_error]
  | nan => simp [make_jwt, ht, pyGet, ebind_ok, ebind_error]
  | inf b => simp [make_jwt, ht, pyGet, ebind_ok, ebind_error]
  | str s => simp [make_jwt, ht, pyGet, ebind_ok, ebind_error]
  | arr l => simp [make_jwt, ht, pyGet, ebind_ok, ebind_error]

theorem make_jwt_obj (fields : List (String × Json)) (idv : Int) (fs ls : String)
    (uo : Option Json) (sec : String) (now : Int)
    (hid : objGet fields "id" = some (Json.num idv))
    (hf : (objGet fields "first_name").getD (Json.str "") = Json.str fs)
    (hl : (objGet fields "last_name").getD (Json.str "") = Json.str ls)
    (hu : objGet fields "username" = uo) :
    make_jwt (Json.obj fields) sec now =
      .ok ⟨toString idv, pyStrip (fs ++ " " ++ ls), now, now + 60 * 60 * 24 * 30,
        some (Json.num idv), uo⟩ := by
  have hne : fields ≠ [] := by
    intro h
    rw [h] at hid
    cases hid
  have ht : pyTruthy (Json.obj fields) = true := by
    cases fields with
    | nil => exact absurd rfl hne
    | cons a b => simp [pyTruthy, List.isEmpty]
  simp [make_jwt, ht, pyGet, pyGetD, hid, hf, hl, hu, pyStrOpt, pyStr,
    ebind_ok, ebind_error, pyRepr]

theorem auth_guest (i : Option String) (S sec : String) (ttl now : Int)
    (h : initDataFalsy i = true) :
    auth_telegram i true S sec ttl now =
      .ok ⟨⟨"1", "Гость Dev", now, now + 60 * 60 * 24 * 30, some (Json.num 1), none⟩,
        60 * 60 * 24 * 30, guestUser⟩ := by
  rw [auth_telegram, if_pos ⟨h, rfl⟩, make_jwt_guest]

theorem auth_noData_off (i : Option String) (S sec : String) (ttl now : Int)
    (h : initDataFalsy i = true) :
    auth_telegram i false S sec ttl now = .error .noInitData := by
  rw [auth_telegram, if_neg (fun hc => absurd hc.2 (by simp)), if_pos h]

theorem auth_verify_error (i : Option String) (d : Bool) (S sec : String) (ttl now : Int)
    (e : VerifyError) (hi : initDataFalsy i = false) (hS : S ≠ "")
    (hv : verify_init_data (i.getD "") S ttl now = .error e) :
    auth_telegram i d S sec ttl now = .error (.verify e) := by
  rw [auth_telegram, if_neg (fun hc => by rw [hi] at hc; exact absurd hc.1 (by simp)),
    if_neg (by rw [hi]; simp), if_neg hS, hv]

theorem auth_verify_ok (i : Option String) (d : Bool) (S sec : String) (ttl now : Int)
    (v : Verified) (hi : initDataFalsy i = false) (hS : S ≠ "")
    (hv : verify_init_data (i.getD "") S ttl now = .ok v) :
    auth_telegram i d S sec ttl now =
      (let user := match v.user with
        | none => Json.obj []
        | some j => if pyTruthy j then j else Json.obj []
      match make_jwt user sec now with
      | .ok c => .ok ⟨c, 60 * 60 * 24 * 30, user⟩
      | .error e => .error (.py e)) := by
  rw [auth_telegram, if_neg (fun hc => by rw [hi] at hc; exact absurd hc.1 (by simp)),
    if_neg (by rw [hi]; simp), if_neg hS, hv]

/-! ### The claims -/

/-- C1: round-trip.  For every parameter list `P` carrying a numeric
`auth_date` within the TTL window and every bot secret `S`, serializing
`P` as a query string, signing it with the key derived from `S` and
appending the hash makes `verify_init_data` succeed and return the
identity decoded from `P`'s `user` field, together with the full parsed
parameters. -/
theorem C1_round_trip (P : List (String × String)) (S : String) (ttl now : Int)
    (ha : 0 < authDateVal P) (hf : now - authDateVal P ≤ ttl) :
    verify_init_data (signPayload P S) S ttl now =
      .ok ⟨userVal P, P ++ [("hash", expectedHash S (dcsOfPairs P))]⟩ := by
  rw [verify_signPayload, if_neg]
  intro hc
  rcases hc with hc | hc <;> omega

/-- C1 witness: the spec's own example, `auth_date=1000000000` with
`user={"id":42}`, checked at `now = 1000000100` under a day's TTL. -/
theorem C1_round_trip_witness :
    0 < authDateVal [("auth_date", "1000000000"), ("user", "\x7b\"id\":42\x7d")] ∧
    (1000000100 : Int) - authDateVal [("auth_date", "1000000000"), ("user", "\x7b\"id\":42\x7d")] ≤
      86400 ∧
    verify_init_data
        (signPayload [("auth_date", "1000000000"), ("user", "\x7b\"id\":42\x7d")] "12345:token")
        "12345:token" 86400 1000000100 =
      .ok ⟨userVal [("auth_date", "1000000000"), ("user", "\x7b\"id\":42\x7d")],
        [("auth_date", "1000000000"), ("user", "\x7b\"id\":42\x7d")] ++
          [("hash", expectedHash "12345:token"
            (dcsOfPairs [("auth_date", "1000000000"), ("user", "\x7b\"id\":42\x7d")]))]⟩ :=
  ⟨by decide, by decide, C1_round_trip _ _ _ _ (by decide) (by decide)⟩

/-- C3: a missing or empty `hash` parameter fails with
`MissingSignature`, and it does so for every clock reading and TTL — the
check precedes any freshness decision; in particular the empty payload
fails with `MissingSignature`. -/
theorem C3_missing_signature :
    (∀ (p S : String) (ttl now : Int), providedHash (parse_qsl p) = "" →
      verify_init_data p S ttl now = .error .missingSignature) ∧
    (∀ (S : String) (ttl now : Int),
      verify_init_data "" S ttl now = .error .missingSignature) := by
  constructor
  · exact fun p S ttl now h => verify_missingSignature p S ttl now h
  · intro S ttl now
    exact verify_missingSignature _ S ttl now (by decide)

/-- C3 witness: a payload without `hash`, one with an empty `hash`, and
the empty payload, all rejected with `MissingSignature`. -/
theorem C3_missing_signature_witness :
    providedHash (parse_qsl "auth_date=5") = "" ∧
    providedHash (parse_qsl "hash=&auth_date=5") = "" ∧
    verify_init_data "auth_date=5" "S" 7 9 = .error .missingSignature ∧
    verify_init_data "hash=&auth_date=5" "S" 7 9 = .error .missingSignature ∧
    verify_init_data "" "S" 7 9 = .error .missingSignature :=
  ⟨by decide, by decide, C3_missing_signature.1 "auth_date=5" "S" 7 9 (by decide),
    C3_missing_signature.1 "hash=&auth_date=5" "S" 7 9 (by decide),
    C3_missing_signature.2 "S" 7 9⟩

/-- C4: freshness boundary on a correctly signed payload: verification
succeeds when `now - auth_date` equals the TTL exactly, fails `Expired`
at `ttl + 1`, and fails `Expired` when `auth_date` is missing,
non-numeric, or zero. -/
theorem C4_freshness (P : List (String × String)) (S : String) (ttl now : Int) :
    (authDateVal P = now - ttl → 0 < now - ttl →
      verify_init_data (signPayload P S) S ttl now =
        .ok ⟨userVal P, P ++ [("hash", expectedHash S (dcsOfPairs P))]⟩) ∧
    (authDateVal P = now - ttl - 1 →
      verify_init_data (signPayload P S) S ttl now = .error .expired) ∧
    (dictGet P "auth_date" = none →
      verify_init_data (signPayload P S) S ttl now = .error .expired) ∧
    (∀ s, dictGet P "auth_date" = some s → pyInt s = none →
      verify_init_data (signPayload P S) S ttl now = .error .expired) ∧
    (authDateVal P = 0 →
      verify_init_data (signPayload P S) S ttl now = .error .expired) := by
  refine ⟨?_, ?_, ?_, ?_, ?_⟩
  · intro h1 h2
    rw [verify_signPayload, if_neg]
    intro hc
    rcases hc with hc | hc <;> omega
  · intro h1
    rw [verify_signPayload, if_pos]
    rcases eq_or_ne (authDateVal P) 0 with hz | hz
    · exact Or.inl hz
    · right
      omega
  · intro h1
    have hz : authDateVal P = 0 := by
      rw [authDateVal, h1]
      rfl
    rw [verify_signPayload, if_pos (Or.inl hz)]
  · intro s h1 h2
    have hz : authDateVal P = 0 := by
      rw [authDateVal, h1]
      by_cases hs : s = ""
      · rw [pyOrStr, if_pos hs]
        rfl
      · rw [pyOrStr, if_neg hs, pyIntOr0, h2]
        rfl
    rw [verify_signPayload, if_pos (Or.inl hz)]
  · intro h1
    rw [verify_signPayload, if_pos (Or.inl h1)]

/-- C4 witness: the boundary and degenerate freshness cases at concrete
inputs (`ttl = 50`, `now = 150`). -/
theorem C4_freshness_witness :
    (authDateVal [("auth_date", "100")] = (150 : Int) - 50 ∧
      verify_init_data (signPayload [("auth_date", "100")] "S") "S" 50 150 =
        .ok ⟨userVal [("auth_date", "100")], [("auth_date", "100")] ++
          [("hash", expectedHash "S" (dcsOfPairs [("auth_date", "100")]))]⟩) ∧
    (authDateVal [("auth_date", "99")] = (150 : Int) - 50 - 1 ∧
      verify_init_data (signPayload [("auth_date", "99")] "S") "S" 50 150 =
        .error .expired) ∧
    (dictGet [("user", "x")] "auth_date" = none ∧
      verify_init_data (signPayload [("user", "x")] "S") "S" 50 150 = .error .expired) ∧
    (pyInt "abc" = none ∧
      verify_init_data (signPayload [("auth_date", "abc")] "S") "S" 50 150 =
        .error .expired) ∧
    (authDateVal [("auth_date", "0")] = 0 ∧
      verify_init_data (signPayload [("auth_date", "0")] "S") "S" 50 150 =
        .error .expired) :=
  ⟨⟨by decide, (C4_freshness [("auth_date", "100")] "S" 50 150).1 (by decide) (by decide)⟩,
    ⟨by decide, (C4_freshness [("auth_date", "99")] "S" 50 150).2.1 (by decide)⟩,
    ⟨by decide, (C4_freshness [("user", "x")] "S" 50 150).2.2.1 (by decide)⟩,
    ⟨by decide, (C4_freshness [("auth_date", "abc")] "S" 50 150).2.2.2.1 "abc" (by decide)
      (by decide)⟩,
    ⟨by decide, (C4_freshness [("auth_date", "0")] "S" 50 150).2.2.2.2 (by decide)⟩⟩

theorem hexStr_length (bs : List Nat) : (hexStr bs).data.length = 2 * bs.length := by
  induction bs with
  | nil => rfl
  | cons b rest ih =>
    rw [hexStr_data_cons]
    simp only [List.length_cons, ih, List.length_cons]
    omega

theorem sha256_length (m : List Nat) : (sha256 m).length = 32 := by
  simp [sha256, wordBytes]

theorem expectedHash_length (bt d : String) : (expectedHash bt d).data.length = 64 := by
  rw [expectedHash, hexStr_length]
  unfold hmacSha256
  rw [sha256_length]

theorem signPayload_provided (P : List (String × String)) (S : String) :
    providedHash (parse_qsl (signPayload P S)) = expectedHash S (dcsOfPairs P) := by
  rw [parse_signPayload, providedHash_append_hash _ _ (expectedHash_ne_empty S _),
    asciiLower_expectedHash]

theorem signPayload_dcs (P : List (String × String)) (S : String) :
    dcsOfPairs (parse_qsl (signPayload P S)) = dcsOfPairs P := by
  rw [parse_signPayload, dcsOfPairs_append_hash]

theorem signPayload_authDate (P : List (String × String)) (S : String) :
    authDateVal (parse_qsl (signPayload P S)) = authDateVal P := by
  rw [parse_signPayload, authDateVal_append_hash]

theorem signPayload_user (P : List (String × String)) (S : String) :
    userVal (parse_qsl (signPayload P S)) = userVal P := by
  rw [parse_signPayload, userVal_append_hash]

theorem signPayload_ne_empty (P : List (String × String)) (S : String) :
    signPayload P S ≠ "" := by
  intro h
  have h2 := congrArg String.data h
  rw [signPayload] at h2
  simp at h2

theorem diffCount_str (pre suf : String) (c1 c2 : Char) (h : ¬(c1 = c2)) :
    diffCount (pre ++ ofChars [c1] ++ suf).data (pre ++ ofChars [c2] ++ suf).data = 1 := by
  have e : ∀ c : Char, (pre ++ ofChars [c] ++ suf).data = pre.data ++ c :: suf.data := by
    intro c
    rw [String.data_append, String.data_append, ofChars_data, List.append_assoc,
      List.singleton_append]
  rw [e c1, e c2]
  exact diffCount_single _ _ c1 c2 h

/-- C2: the claim is false on the code.  The two signed payloads below
differ in exactly one character (the value of the ignored `signature`
parameter, `%61` versus `%62`), yet both verify successfully under the
same bot secret — the changed character never enters the canonical
data-check string, so the recomputed HMAC still matches. -/
theorem C2_tamper_counterexample :
    verify_init_data (signPayload [("auth_date", "1"), ("signature", "a")] "bot") "bot" 100 1 =
      .ok ⟨none, [("auth_date", "1"), ("signature", "a"),
        ("hash", expectedHash "bot" (dcsOfPairs [("auth_date", "1"), ("signature", "a")]))]⟩ ∧
    verify_init_data (signPayload [("auth_date", "1"), ("signature", "b")] "bot") "bot" 100 1 =
      .ok ⟨none, [("auth_date", "1"), ("signature", "b"),
        ("hash", expectedHash "bot" (dcsOfPairs [("auth_date", "1"), ("signature", "b")]))]⟩ ∧
    diffCount (signPayload [("auth_date", "1"), ("signature", "a")] "bot").data
      (signPayload [("auth_date", "1"), ("signature", "b")] "bot").data = 1 := by
  refine ⟨?_, ?_, ?_⟩
  · have hv := verify_signPayload [("auth_date", "1"), ("signature", "a")] "bot" 100 1
    rw [if_neg (by decide)] at hv
    rw [hv]
    rfl
  · have hv := verify_signPayload [("auth_date", "1"), ("signature", "b")] "bot" 100 1
    rw [if_neg (by decide)] at hv
    rw [hv]
    rfl
  · have e1 : signPayload [("auth_date", "1"), ("signature", "a")] "bot" =
        "%61%75%74%68%5F%64%61%74%65=%31&%73%69%67%6E%61%74%75%72%65=%6" ++ ofChars ['1'] ++
          ("&hash=" ++ expectedHash "bot" "auth_date=1") := by
      rw [signPayload,
        (by decide : serializeParams [("auth_date", "1"), ("signature", "a")] =
          "%61%75%74%68%5F%64%61%74%65=%31&%73%69%67%6E%61%74%75%72%65=%6" ++ ofChars ['1']),
        (by decide : dcsOfPairs [("auth_date", "1"), ("signature", "a")] = "auth_date=1")]
      simp [String.append_assoc]
    have e2 : signPayload [("auth_date", "1"), ("signature", "b")] "bot" =
        "%61%75%74%68%5F%64%61%74%65=%31&%73%69%67%6E%61%74%75%72%65=%6" ++ ofChars ['2'] ++
          ("&hash=" ++ expectedHash "bot" "auth_date=1") := by
      rw [signPayload,
        (by decide : serializeParams [("auth_date", "1"), ("signature", "b")] =
          "%61%75%74%68%5F%64%61%74%65=%31&%73%69%67%6E%61%74%75%72%65=%6" ++ ofChars ['2']),
        (by decide : dcsOfPairs [("auth_date", "1"), ("signature", "b")] = "auth_date=1")]
      simp [String.append_assoc]
    rw [e1, e2]
    exact diffCount_str _ _ '1' '2' (by decide)

/-- C2 (amended): for a payload that verifies under `S`, any change that
leaves the canonical data-check string intact but alters the lower-cased
value of the `hash` parameter (keeping it nonempty) makes verification
fail with `BadSignature`.  (Changes preserving both — e.g. the flipped
`signature` byte or a case flip inside the hash — keep verification
succeeding, per the counterexample; changes that alter the canonical
string are caught only up to HMAC collision resistance, which the
concrete hash function cannot witness.) -/
theorem C2_tamper_amended (p p2 S : String) (ttl now : Int) (r : Verified)
    (hok : verify_init_data p S ttl now = .ok r)
    (hdcs : dcsOfPairs (parse_qsl p2) = dcsOfPairs (parse_qsl p))
    (hne : providedHash (parse_qsl p2) ≠ providedHash (parse_qsl p))
    (hne2 : providedHash (parse_qsl p2) ≠ "") :
    verify_init_data p2 S ttl now = .error .badSignature := by
  obtain ⟨h1, h2⟩ := verify_ok_inv hok
  refine verify_badSignature p2 S ttl now hne2 ?_
  rw [hdcs, h2]
  exact fun hx => hne hx.symm

/-- C2 amended witness: the payload signed over `auth_date=1` verifies;
replacing its hash value by `00` (same canonical string, different
lower-cased hash) is rejected with `BadSignature`. -/
theorem C2_tamper_amended_witness :
    verify_init_data (signPayload [("auth_date", "1")] "bot") "bot" 100 1 =
      .ok ⟨none, [("auth_date", "1"),
        ("hash", expectedHash "bot" (dcsOfPairs [("auth_date", "1")]))]⟩ ∧
    verify_init_data (serializeParams [("auth_date", "1")] ++ "&hash=" ++ "00") "bot" 100 1 =
      .error .badSignature := by
  have hok : verify_init_data (signPayload [("auth_date", "1")] "bot") "bot" 100 1 =
      .ok ⟨none, [("auth_date", "1"),
        ("hash", expectedHash "bot" (dcsOfPairs [("auth_date", "1")]))]⟩ := by
    have hv := verify_signPayload [("auth_date", "1")] "bot" 100 1
    rw [if_neg (by decide)] at hv
    rw [hv]
    rfl
  have hparse2 : parse_qsl (serializeParams [("auth_date", "1")] ++ "&hash=" ++ "00") =
      [("auth_date", "1")] ++ [("hash", "00")] :=
    parse_serialize_hash [("auth_date", "1")] "00" (by decide)
  have hprov2 : providedHash
      (parse_qsl (serializeParams [("auth_date", "1")] ++ "&hash=" ++ "00")) = "00" := by
    rw [hparse2, providedHash_append_hash _ _ (by decide)]
    decide
  refine ⟨hok, C2_tamper_amended _ _ "bot" 100 1 _ hok ?_ ?_ ?_⟩
  · rw [hparse2, dcsOfPairs_append_hash, signPayload_dcs]
  · rw [hprov2, signPayload_provided]
    intro h
    have h2 := congrArg (fun s => s.data.length) h
    simp only [expectedHash_length] at h2
    exact absurd h2 (by decide)
  · rw [hprov2]
    decide

/-- C5: the claim is false on the code for duplicate keys.  The payloads
`a=1&a=2&hash=x` and `a=2&a=1&hash=x` decode to the same multiset of
non-hash pairs, but the sort is stable and compares keys only, so the
two canonical data-check strings differ (`a=1\na=2` vs `a=2\na=1`). -/
theorem C5_order_counterexample :
    (filteredPairs (parse_qsl "a=1&a=2&hash=x")).Perm
      (filteredPairs (parse_qsl "a=2&a=1&hash=x")) ∧
    dcsOfPairs (parse_qsl "a=1&a=2&hash=x") ≠ dcsOfPairs (parse_qsl "a=2&a=1&hash=x") := by
  constructor
  · decide
  · decide

/-- C5 (amended): for payloads whose non-`hash`/`signature` pairs are
the same multiset and whose keys are pairwise distinct, the canonical
data-check strings are byte-identical, hence so are the expected HMAC
digests; with duplicate keys, equal-key pairs keep their payload order
(stable sort by key only), so differently ordered duplicates yield
different canonical strings. -/
theorem C5_order_amended (p1 p2 S : String)
    (hp : (filteredPairs (parse_qsl p1)).Perm (filteredPairs (parse_qsl p2)))
    (hn : ((filteredPairs (parse_qsl p1)).map Prod.fst).Nodup) :
    dcsOfPairs (parse_qsl p1) = dcsOfPairs (parse_qsl p2) ∧
    expectedHash S (dcsOfPairs (parse_qsl p1)) = expectedHash S (dcsOfPairs (parse_qsl p2)) := by
  have h := dcs_eq_of_perm p1 p2 hp hn
  exact ⟨h, by rw [h]⟩

/-- C5 amended witness: `b=2&a=1&hash=x` and `a=1&b=2&hash=y` carry the
same pairs in different order and build the same canonical string. -/
theorem C5_order_amended_witness :
    (filteredPairs (parse_qsl "b=2&a=1&hash=x")).Perm
      (filteredPairs (parse_qsl "a=1&b=2&hash=y")) ∧
    ((filteredPairs (parse_qsl "b=2&a=1&hash=x")).map Prod.fst).Nodup ∧
    dcsOfPairs (parse_qsl "b=2&a=1&hash=x") = dcsOfPairs (parse_qsl "a=1&b=2&hash=y") ∧
    expectedHash "S" (dcsOfPairs (parse_qsl "b=2&a=1&hash=x")) =
      expectedHash "S" (dcsOfPairs (parse_qsl "a=1&b=2&hash=y")) :=
  ⟨by decide, by decide,
    (C5_order_amended "b=2&a=1&hash=x" "a=1&b=2&hash=y" "S" (by decide) (by decide)).1,
    (C5_order_amended "b=2&a=1&hash=x" "a=1&b=2&hash=y" "S" (by decide) (by decide)).2⟩

/-- C6: the claim is false on the code.  For `a=1&a=2&hash=x` the
canonical string serializes both occurrences (`a=1\na=2`) while the
returned mapping keeps only the last one (`a ↦ 2`), so the serialized
pairs are not exactly the mapping's pairs. -/
theorem C6_duplicate_counterexample :
    ("a", "1") ∈ List.insertionSort keyLe (filteredPairs (parse_qsl "a=1&a=2&hash=x")) ∧
    dictGet (parse_qsl "a=1&a=2&hash=x") "a" = some "2" ∧
    dcsOfPairs (parse_qsl "a=1&a=2&hash=x") = "a=1\na=2" := by
  refine ⟨by decide, by decide, by decide⟩

/-- C6 (amended): the canonical string serializes all parsed pairs
except `hash`/`signature` — a permutation of the filtered parse,
duplicates included — and every entry of the last-wins mapping under a
non-excluded key appears among the serialized pairs; with duplicate keys
the canonical string therefore contains pairs the mapping has dropped. -/
theorem C6_duplicate_amended (p : String) :
    (List.insertionSort keyLe (filteredPairs (parse_qsl p))).Perm
      (filteredPairs (parse_qsl p)) ∧
    (∀ k v, dictGet (parse_qsl p) k = some v → k ≠ "hash" → k ≠ "signature" →
      (k, v) ∈ List.insertionSort keyLe (filteredPairs (parse_qsl p))) :=
  ⟨List.perm_insertionSort _ _, fun _ _ h hk1 hk2 => mem_sorted_of_dictGet h hk1 hk2⟩

/-- C6 amended witness: on `a=1&a=2&hash=x` the mapping's entry
`a ↦ 2` appears among the canonically serialized pairs. -/
theorem C6_duplicate_amended_witness :
    dictGet (parse_qsl "a=1&a=2&hash=x") "a" = some "2" ∧
    ("a", "2") ∈ List.insertionSort keyLe (filteredPairs (parse_qsl "a=1&a=2&hash=x")) :=
  ⟨by decide,
    (C6_duplicate_amended "a=1&a=2&hash=x").2 "a" "2" (by decide) (by decide) (by decide)⟩

/-- C7: tolerant identity decode — when the signature and freshness
checks pass and the `user` parameter is present but not valid JSON,
verification still succeeds and returns a null identity together with
the full parsed parameters. -/
theorem C7_tolerant_user (p S : String) (ttl now : Int) (u : String)
    (h1 : providedHash (parse_qsl p) ≠ "")
    (h2 : expectedHash S (dcsOfPairs (parse_qsl p)) = providedHash (parse_qsl p))
    (h3 : ¬(authDateVal (parse_qsl p) = 0 ∨ now - authDateVal (parse_qsl p) > ttl))
    (h4 : dictGet (parse_qsl p) "user" = some u)
    (h5 : pyJsonLoads u = none) :
    verify_init_data p S ttl now = .ok ⟨none, parse_qsl p⟩ := by
  have h := verify_ok_of p S ttl now h1 h2 h3
  have hu : userVal (parse_qsl p) = none := by
    rw [userVal, h4]
    show (if u = "" then none else pyJsonLoads u) = none
    by_cases hu0 : u = ""
    · rw [if_pos hu0]
    · rw [if_neg hu0, h5]
  rw [h, hu]

/-- C7 witness: a signed payload whose `user` value `{nope` is not
valid JSON still verifies, with a null identity. -/
theorem C7_tolerant_user_witness :
    pyJsonLoads "nope\x7b" = none ∧
    verify_init_data (signPayload [("auth_date", "1"), ("user", "nope\x7b")] "bot") "bot" 100 1 =
      .ok ⟨none, parse_qsl (signPayload [("auth_date", "1"), ("user", "nope\x7b")] "bot")⟩ :=
  ⟨rfl,
    C7_tolerant_user _ "bot" 100 1 "nope\x7b"
      (by rw [signPayload_provided]; exact expectedHash_ne_empty _ _)
      (by rw [signPayload_provided, signPayload_dcs])
      (by rw [signPayload_authDate]; decide)
      (by rw [parse_signPayload, dictGet_append_hash, if_neg (by decide)]; decide)
      rfl⟩

/-- C8: the claim is false on the code at the empty-string boundary.
`initData = ""` is a supplied initData, but the endpoint tests Python
falsiness (`not data.initData`), so with guest mode on it issues a guest
session token for a supplied initData whose verification was never run
(and would have failed with `MissingSignature`). -/
theorem C8_guest_counterexample :
    auth_telegram (some "") true "bot" "sec" 100 5 =
      .ok ⟨⟨"1", "Гость Dev", 5, 5 + 60 * 60 * 24 * 30, some (Json.num 1), none⟩,
        60 * 60 * 24 * 30, guestUser⟩ ∧
    verify_init_data "" "bot" 100 5 = .error .missingSignature :=
  ⟨auth_guest (some "") "bot" "sec" 100 5 rfl,
    verify_missingSignature "" "bot" 100 5 (by decide)⟩

/-- C8 (amended): a guest session token is issued exactly when the
guest flag is on and the supplied initData is absent or empty; with the
flag off such requests fail with `NoInitData`; and for a nonempty
initData every verification failure is returned as that error — no
session token of any kind is issued, regardless of the guest flag. -/
theorem C8_guest_isolation_amended :
    (∀ (i : Option String) (S sec : String) (ttl now : Int), initDataFalsy i = true →
      auth_telegram i true S sec ttl now =
        .ok ⟨⟨"1", "Гость Dev", now, now + 60 * 60 * 24 * 30, some (Json.num 1), none⟩,
          60 * 60 * 24 * 30, guestUser⟩) ∧
    (∀ (i : Option String) (S sec : String) (ttl now : Int), initDataFalsy i = true →
      auth_telegram i false S sec ttl now = .error .noInitData) ∧
    (∀ (i : Option String) (d : Bool) (S sec : String) (ttl now : Int) (e : VerifyError),
      initDataFalsy i = false → S ≠ "" →
      verify_init_data (i.getD "") S ttl now = .error e →
      auth_telegram i d S sec ttl now = .error (.verify e)) :=
  ⟨fun i S sec ttl now h => auth_guest i S sec ttl now h,
    fun i S sec ttl now h => auth_noData_off i S sec ttl now h,
    fun i d S sec ttl now e hi hS hv => auth_verify_error i d S sec ttl now e hi hS hv⟩

/-- C8 amended witness: absent initData with the flag off is
`NoInitData`; absent initData with the flag on yields the guest token;
a nonempty unsigned initData is rejected with `MissingSignature` and no
token, even with the flag on. -/
theorem C8_guest_isolation_amended_witness :
    auth_telegram none false "bot" "sec" 100 5 = .error .noInitData ∧
    auth_telegram none true "bot" "sec" 100 5 =
      .ok ⟨⟨"1", "Гость Dev", 5, 5 + 60 * 60 * 24 * 30, some (Json.num 1), none⟩,
        60 * 60 * 24 * 30, guestUser⟩ ∧
    auth_telegram (some "a=1") true "bot" "sec" 100 5 =
      .error (.verify .missingSignature) :=
  ⟨C8_guest_isolation_amended.2.1 none "bot" "sec" 100 5 rfl,
    C8_guest_isolation_amended.1 none "bot" "sec" 100 5 rfl,
    C8_guest_isolation_amended.2.2 (some "a=1") true "bot" "sec" 100 5 .missingSignature
      (by decide) (by decide)
      (verify_missingSignature "a=1" "bot" 100 5 (by decide))⟩

/-- C9: the issued token's claim set has subject `str(identity.id)` (the
literal `guest` when the identity is absent), display name the trimmed
concatenation of first and last name (the localized guest label when
absent), `iat = now`, `exp = now + 2592000` (exactly 30 days), and
embeds the platform id and username (null when absent). -/
theorem C9_token_claims :
    (∀ (fields : List (String × Json)) (idv : Int) (fs ls : String) (uo : Option Json)
      (sec : String) (now : Int),
      objGet fields "id" = some (Json.num idv) →
      (objGet fields "first_name").getD (Json.str "") = Json.str fs →
      (objGet fields "last_name").getD (Json.str "") = Json.str ls →
      objGet fields "username" = uo →
      make_jwt (Json.obj fields) sec now =
        .ok ⟨toString idv, pyStrip (fs ++ " " ++ ls), now, now + 2592000,
          some (Json.num idv), uo⟩) ∧
    (∀ (sec : String) (now : Int),
      make_jwt (Json.obj []) sec now =
        .ok ⟨"guest", "Гость Dev", now, now + 2592000, none, none⟩) := by
  constructor
  · intro fields idv fs ls uo sec now hid hf hl hu
    have h := make_jwt_obj fields idv fs ls uo sec now hid hf hl hu
    rw [show (60 * 60 * 24 * 30 : Int) = 2592000 from by norm_num] at h
    exact h
  · intro sec now
    have h := make_jwt_empty_obj sec now
    rw [show (60 * 60 * 24 * 30 : Int) = 2592000 from by norm_num] at h
    exact h

/-- C9 witness: a concrete identity with id 7, names `A`/`B`, username
`u`, and the null identity, at `now = 11`. -/
theorem C9_token_claims_witness :
    make_jwt (Json.obj [("id", Json.num 7), ("first_name", Json.str "A"),
        ("last_name", Json.str "B"), ("username", Json.str "u")]) "sec" 11 =
      .ok ⟨toString (7 : Int), pyStrip ("A" ++ " " ++ "B"), 11, 11 + 2592000,
        some (Json.num 7), some (Json.str "u")⟩ ∧
    make_jwt (Json.obj []) "sec" 11 =
      .ok ⟨"guest", "Гость Dev", 11, 11 + 2592000, none, none⟩ :=
  ⟨C9_token_claims.1 [("id", Json.num 7), ("first_name", Json.str "A"),
      ("last_name", Json.str "B"), ("username", Json.str "u")] 7 "A" "B"
      (some (Json.str "u")) "sec" 11 rfl rfl rfl rfl,
    C9_token_claims.2 "sec" 11⟩

theorem initDataFalsy_of_ne (p : String) (h : p ≠ "") : initDataFalsy (some p) = false := by
  simp [initDataFalsy, h]

/-- C10: the claim is false on the code for falsy non-object identities.
The signed payload with `user=0` verifies and returns the non-object
identity `0`, but token issuance does not reach an error branch: `0` is
Python-falsy, `verified.get("user") or {}` replaces it with the empty
dict, and a `guest`-subject session token is issued. -/
theorem C10_nonobject_counterexample :
    verify_init_data (signPayload [("auth_date", "1"), ("user", "0")] "bot") "bot" 100 1 =
      .ok ⟨some (Json.num 0), [("auth_date", "1"), ("user", "0"),
        ("hash", expectedHash "bot" (dcsOfPairs [("auth_date", "1"), ("user", "0")]))]⟩ ∧
    auth_telegram (some (signPayload [("auth_date", "1"), ("user", "0")] "bot")) false "bot"
        "sec" 100 1 =
      .ok ⟨⟨"guest", "Гость Dev", 1, 1 + 60 * 60 * 24 * 30, none, none⟩,
        60 * 60 * 24 * 30, Json.obj []⟩ := by
  have hv := verify_signPayload [("auth_date", "1"), ("user", "0")] "bot" 100 1
  rw [if_neg (by decide)] at hv
  have hv2 : verify_init_data (signPayload [("auth_date", "1"), ("user", "0")] "bot")
      "bot" 100 1 = .ok ⟨some (Json.num 0), [("auth_date", "1"), ("user", "0"),
        ("hash", expectedHash "bot" (dcsOfPairs [("auth_date", "1"), ("user", "0")]))]⟩ := by
    rw [hv]
    rfl
  refine ⟨hv2, ?_⟩
  rw [auth_verify_ok _ false "bot" "sec" 100 1 _
    (initDataFalsy_of_ne _ (signPayload_ne_empty _ _)) (by decide) hv2]
  rfl

/-- C10 (amended): when the signature and freshness checks pass and the
`user` value is valid JSON for a non-object, verify succeeds and returns
that value as the identity; subsequent token issuance then crashes with
`AttributeError` exactly when the value is Python-truthy, while a falsy
value (`0`, `""`, `[]`, `false`, `null`) is replaced by the empty dict
and yields a `guest`-subject session token. -/
theorem C10_nonobject_amended (p S sec : String) (ttl now : Int) (d : Bool)
    (u : String) (j : Json)
    (h1 : providedHash (parse_qsl p) ≠ "")
    (h2 : expectedHash S (dcsOfPairs (parse_qsl p)) = providedHash (parse_qsl p))
    (h3 : ¬(authDateVal (parse_qsl p) = 0 ∨ now - authDateVal (parse_qsl p) > ttl))
    (h4 : dictGet (parse_qsl p) "user" = some u)
    (h5 : u ≠ "")
    (h6 : pyJsonLoads u = some j)
    (hobj : jsonIsObj j = false)
    (hp : p ≠ "") (hS : S ≠ "") :
    verify_init_data p S ttl now = .ok ⟨some j, parse_qsl p⟩ ∧
    (pyTruthy j = true →
      auth_telegram (some p) d S sec ttl now = .error (.py .attributeError)) ∧
    (pyTruthy j = false →
      auth_telegram (some p) d S sec ttl now =
        .ok ⟨⟨"guest", "Гость Dev", now, now + 2592000, none, none⟩, 2592000, Json.obj []⟩) := by
  have hu : userVal (parse_qsl p) = some j := by
    rw [userVal, h4]
    show (if u = "" then none else pyJsonLoads u) = some j
    rw [if_neg h5, h6]
  have hok : verify_init_data p S ttl now = .ok ⟨some j, parse_qsl p⟩ := by
    rw [verify_ok_of p S ttl now h1 h2 h3, hu]
  have hfalsy : initDataFalsy (some p) = false := by simp [initDataFalsy, hp]
  refine ⟨hok, ?_, ?_⟩
  · intro ht
    rw [auth_verify_ok _ d S sec ttl now _ hfalsy hS hok]
    show (match make_jwt (if pyTruthy j then j else Json.obj []) sec now with
      | Except.ok c =>
        Except.ok (⟨c, 60 * 60 * 24 * 30, if pyTruthy j then j else Json.obj []⟩ : AuthResult)
      | Except.error e => Except.error (AuthError.py e)) = _
    rw [if_pos ht, make_jwt_nonobj ht hobj]
  · intro hf
    rw [auth_verify_ok _ d S sec ttl now _ hfalsy hS hok]
    show (match make_jwt (if pyTruthy j then j else Json.obj []) sec now with
      | Except.ok c =>
        Except.ok (⟨c, 60 * 60 * 24 * 30, if pyTruthy j then j else Json.obj []⟩ : AuthResult)
      | Except.error e => Except.error (AuthError.py e)) = _
    rw [if_neg (by rw [hf]; exact Bool.false_ne_true), make_jwt_empty_obj]
    rw [show (60 * 60 * 24 * 30 : Int) = 2592000 from by norm_num]

/-- C10 amended witness: the signed payload with `user=42` (a truthy
non-object) verifies and returns identity 42, and token issuance fails
with `AttributeError`. -/
theorem C10_nonobject_amended_witness :
    verify_init_data (signPayload [("auth_date", "1"), ("user", "42")] "bot") "bot" 100 1 =
      .ok ⟨some (Json.num 42),
        parse_qsl (signPayload [("auth_date", "1"), ("user", "42")] "bot")⟩ ∧
    auth_telegram (some (signPayload [("auth_date", "1"), ("user", "42")] "bot")) false "bot"
        "sec" 100 1 = .error (.py .attributeError) :=
  have h := C10_nonobject_amended (signPayload [("auth_date", "1"), ("user", "42")] "bot")
    "bot" "sec" 100 1 false "42" (Json.num 42)
    (by rw [signPayload_provided]; exact expectedHash_ne_empty _ _)
    (by rw [signPayload_provided, signPayload_dcs])
    (by rw [signPayload_authDate]; decide)
    (by rw [parse_signPayload, dictGet_append_hash, if_neg (by decide)]; decide)
    (by decide) rfl rfl (signPayload_ne_empty _ _) (by decide)
  ⟨h.1, h.2.1 rfl⟩

end App
